import Mathlib

/-!
# Verification of the twitter-archive-parser core

A shallow embedding of the repository's three source files
(`twitter_guest_api/utils.py`, `get_likes.py`, `get_follows.py`) together
with theorems settling the specification claims.

Python dicts are modelled as insertion-ordered association lists; HTTP
sessions are modelled as oracles (`Nat → Resp` for successive GET responses,
`Nat → String` for successive guest tokens parsed from the token endpoint);
observable effects (GET requests issued, token refreshes, Schema Store
writes) are recorded in an event trace.  Fallible Python code (KeyError,
raised exceptions) is modelled with `Except String`.
-/

set_option autoImplicit false

namespace TwitterArchive

/-- The apostrophe character, used by the `MISSING_VARIABLE_PATTERN` regex. -/
def apos : Char := Char.ofNat 39

/-- The apostrophe as a one-character string. -/
def aposS : String := String.singleton apos

/-- JSON scalar values stored in the request-details dicts: the
`variables` dict maps names to strings (the injected id) or booleans, the
`features` dict maps names to booleans. -/
inductive JVal where
  | str : String → JVal
  | bool : Bool → JVal
deriving DecidableEq, Repr

/-- A Python dict with `JVal` values: an insertion-ordered association list. -/
abbrev Dict := List (String × JVal)

/-- `d[k] = v` on a Python dict: overwrite in place if the key exists
(keeping its position), otherwise append at the end. -/
def alInsert {α : Type} : List (String × α) → String → α → List (String × α)
  | [], k, v => [(k, v)]
  | p :: t, k, v => if p.1 = k then (k, v) :: t else p :: alInsert t k v

/-- `d.get(k)` on a Python dict (`None` when absent). -/
def alLookup {α : Type} (d : List (String × α)) (k : String) : Option α :=
  (d.find? (fun p => p.1 = k)).map (fun p => p.2)

/-- `del d[k]` on a Python dict. -/
def alDel {α : Type} (d : List (String × α)) (k : String) :
    List (String × α) :=
  d.filter (fun p => ¬ p.1 = k)

theorem alLookup_insert_self {α : Type} (d : List (String × α)) (k : String) (v : α) :
    alLookup (alInsert d k v) k = some v := by
  induction d with
  | nil => simp [alInsert, alLookup]
  | cons p t ih =>
    by_cases hp : p.1 = k
    · simp [alInsert, alLookup, hp]
    · have h2 : (decide (p.1 = k)) = false := by simp [hp]
      unfold alLookup at ih ⊢
      simp only [alInsert, if_neg hp, List.find?_cons, h2]
      simpa using ih

theorem alLookup_insert_ne {α : Type} (d : List (String × α)) (k k' : String) (v : α)
    (h : k' ≠ k) : alLookup (alInsert d k' v) k = alLookup d k := by
  induction d with
  | nil => simp [alInsert, alLookup, h]
  | cons p t ih =>
    by_cases hp : p.1 = k'
    · have h2 : (decide (p.1 = k)) = false := by simp [hp, h]
      simp [alInsert, alLookup, hp, h, h2]
    · simp only [alInsert, if_neg hp]
      by_cases hpk : p.1 = k
      · simp [alLookup, hpk]
      · have h2 : (decide (p.1 = k)) = false := by simp [hpk]
        simpa [alLookup, h2] using ih

theorem alLookup_del_self {α : Type} (d : List (String × α)) (k : String) :
    alLookup (alDel d k) k = none := by
  unfold alDel alLookup
  induction d with
  | nil => simp
  | cons p t ih =>
    by_cases hp : p.1 = k
    · simp only [List.filter_cons]
      have h1 : (decide ¬ p.1 = k) = false := by simp [hp]
      simp only [h1, if_false]
      exact ih
    · simp only [List.filter_cons]
      have h1 : (decide ¬ p.1 = k) = true := by simp [hp]
      have h2 : (decide (p.1 = k)) = false := by simp [hp]
      simp only [h1, if_true, List.find?_cons, h2]
      exact ih

/-- Membership of a key (`k in d` in Python). -/
def alContains {α : Type} (d : List (String × α)) (k : String) : Bool :=
  d.any (fun p => p.1 = k)

theorem alContains_insert_self {α : Type} (d : List (String × α)) (k : String) (v : α) :
    alContains (alInsert d k v) k = true := by
  induction d with
  | nil => simp [alInsert, alContains]
  | cons p t ih =>
    by_cases hp : p.1 = k
    · simp [alInsert, alContains, hp]
    · simpa [alInsert, alContains, hp] using ih

theorem alContains_insert_of {α : Type} (d : List (String × α)) (k k' : String) (v : α)
    (h : alContains d k = true) : alContains (alInsert d k' v) k = true := by
  induction d with
  | nil => simp [alContains] at h
  | cons p t ih =>
    simp only [alContains, List.any_cons, Bool.or_eq_true, decide_eq_true_eq] at h
    by_cases hp : p.1 = k'
    · rcases h with h | h
      · simp [alInsert, alContains, hp, hp ▸ h]
      · simp only [alInsert, if_pos hp]
        simp only [alContains, List.any_cons, Bool.or_eq_true, decide_eq_true_eq]
        exact Or.inr h
    · simp only [alInsert, if_neg hp]
      simp only [alContains, List.any_cons, Bool.or_eq_true, decide_eq_true_eq]
      rcases h with h | h
      · exact Or.inl h
      · exact Or.inr (by simpa [alContains] using ih (by simpa [alContains] using h))

theorem alContains_of_lookup {α : Type} (d : List (String × α)) (k : String) (v : α)
    (h : alLookup d k = some v) : alContains d k = true := by
  unfold alLookup at h
  unfold alContains
  induction d with
  | nil => simp at h
  | cons p t ih =>
    simp only [List.find?_cons] at h
    simp only [List.any_cons, Bool.or_eq_true, decide_eq_true_eq]
    by_cases hp : p.1 = k
    · exact Or.inl hp
    · have h2 : (decide (p.1 = k)) = false := by simp [hp]
      simp only [h2] at h
      exact Or.inr (ih h)

end TwitterArchive

namespace TwitterArchive

/-! ## Regex `findall` (the compiled patterns of `utils.py`)

Every pattern used by the source is a literal prefix followed by one
greedy, nonempty character class, optionally followed by a closing literal
character (`MISSING_VARIABLE_PATTERN`, `LIKE_REGEX`, `ACCOUNT_REGEX` have a
closing quote; `MISSING_FEATURE_PATTERN` does not).  `findallAux`
implements Python `re.findall` for exactly this shape: scan left to right,
at each position try the literal prefix, take the maximal run of class
characters (which must be nonempty), check the closing character when the
pattern has one; on success record the group and resume after the match,
otherwise advance one character.  Backtracking inside the greedy class can
never help because the closing character is excluded from the class. -/
def findallAux (lit : List Char) (good : Char → Bool) (closing : Option Char) :
    Nat → List Char → List String
  | 0, _ => []
  | _ + 1, [] => []
  | fuel + 1, s =>
    match s with
    | [] => []
    | _ :: rest =>
      if lit.isPrefixOf s then
        let t := s.drop lit.length
        let grp := t.takeWhile good
        let after := t.drop grp.length
        if grp.isEmpty then findallAux lit good closing fuel rest
        else
          match closing with
          | none => String.mk grp :: findallAux lit good closing fuel after
          | some c =>
            match after with
            | c2 :: tail =>
              if c2 = c then String.mk grp :: findallAux lit good closing fuel tail
              else findallAux lit good closing fuel rest
            | [] => findallAux lit good closing fuel rest
      else findallAux lit good closing fuel rest

/-- The literal part of `MISSING_VARIABLE_PATTERN`
(`Query violation: Variable '([^']+)'`). -/
def MISSING_VARIABLE_LIT : String := "Query violation: Variable " ++ aposS

/-- `MISSING_VARIABLE_PATTERN.findall(s)`. -/
def findall_missing_variables (s : String) : List String :=
  findallAux MISSING_VARIABLE_LIT.toList (fun c => ¬ c = apos) (some apos)
    s.length s.toList

/-- The character class `[a-zA-Z_0-9, ]` of `MISSING_FEATURE_PATTERN`. -/
def featureClassChar (c : Char) : Bool :=
  decide (('a' ≤ c ∧ c ≤ 'z') ∨ ('A' ≤ c ∧ c ≤ 'Z') ∨ c = '_' ∨
    ('0' ≤ c ∧ c ≤ '9') ∨ c = ',' ∨ c = ' ')

/-- The literal part of `MISSING_FEATURE_PATTERN`
(`The following features cannot be null: ([a-zA-Z_0-9, ]+)`). -/
def MISSING_FEATURE_LIT : String := "The following features cannot be null: "

/-- `MISSING_FEATURE_PATTERN.findall(s)`. -/
def findall_missing_features (s : String) : List String :=
  findallAux MISSING_FEATURE_LIT.toList featureClassChar none s.length s.toList

/-- Python `str.split(sep)` with a nonempty separator: split at each
leftmost non-overlapping occurrence.  `acc` holds the current piece in
reverse; one fuel unit is spent per consumed character. -/
def splitOnChars (sep : List Char) : Nat → List Char → List Char → List String
  | 0, acc, s => [String.mk (acc.reverse ++ s)]
  | fuel + 1, acc, s =>
    match s with
    | [] => [String.mk acc.reverse]
    | c :: rest =>
      if sep.isPrefixOf s then
        String.mk acc.reverse :: splitOnChars sep fuel [] (s.drop sep.length)
      else splitOnChars sep fuel (c :: acc) rest

/-- Python `s.split(sep)` for a nonempty separator string. -/
def pySplit (s sep : String) : List String :=
  splitOnChars sep.toList s.toList.length [] s.toList

/-- The feature names extracted by the retry loop: the first
`MISSING_FEATURE_PATTERN` match split on `", "`, or `[]` when there is no
match (lines 94-97 of `utils.py`). -/
def missing_features_of (result : String) : List String :=
  match findall_missing_features result with
  | [] => []
  | g :: _ => pySplit g ", "

/-- The literal part of `LIKE_REGEX` from `get_likes.py`
(`"tweetId" : "(\d+)"`); `\d` is taken as the ASCII digits. -/
def LIKE_LIT : String := "\"tweetId\" : \""

/-- `LIKE_REGEX.finditer(contents)`, as the list of captured ids. -/
def findall_tweet_ids (s : String) : List String :=
  findallAux LIKE_LIT.toList Char.isDigit (some '"') s.length s.toList

/-- The literal part of `ACCOUNT_REGEX` from `get_follows.py`
(`"accountId" : "(\d+)"`). -/
def ACCOUNT_LIT : String := "\"accountId\" : \""

/-- `ACCOUNT_REGEX.finditer(contents)`, as the list of captured ids. -/
def findall_account_ids (s : String) : List String :=
  findallAux ACCOUNT_LIT.toList Char.isDigit (some '"') s.length s.toList

/-! ## Query-string building (`make_params`) -/

/-- Uppercase hex digit (`urllib.parse.quote_plus` uses uppercase
percent escapes). -/
def hexDigit (n : Nat) : Char :=
  if n < 10 then Char.ofNat (48 + n) else Char.ofNat (55 + n)

/-- Lowercase hex digit (`json.dumps` uses lowercase in unicode escapes). -/
def hexDigitLower (n : Nat) : Char :=
  if n < 10 then Char.ofNat (48 + n) else Char.ofNat (87 + n)

/-- UTF-8 encoding of one character, as byte values. -/
def utf8Bytes (c : Char) : List Nat :=
  let n := c.toNat
  if n < 0x80 then [n]
  else if n < 0x800 then [0xC0 + n / 0x40, 0x80 + n % 0x40]
  else if n < 0x10000 then
    [0xE0 + n / 0x1000, 0x80 + n / 0x40 % 0x40, 0x80 + n % 0x40]
  else
    [0xF0 + n / 0x40000, 0x80 + n / 0x1000 % 0x40, 0x80 + n / 0x40 % 0x40,
     0x80 + n % 0x40]

/-- `urllib.parse.quote_plus` with default arguments: keep ASCII
alphanumerics and `_.-~`, turn a space into `+`, percent-encode every
other byte of the UTF-8 encoding. -/
def quote_plus (s : String) : String :=
  String.join (s.toList.map (fun c =>
    if c.isAlphanum ∨ c = '_' ∨ c = '.' ∨ c = '-' ∨ c = '~' then
      String.singleton c
    else if c = ' ' then "+"
    else String.join ((utf8Bytes c).map (fun b =>
      String.mk ['%', hexDigit (b / 16), hexDigit (b % 16)]))))

/-- `\uXXXX` escape of a code unit. -/
def uEscape (n : Nat) : String :=
  String.mk ['\\', 'u', hexDigitLower (n / 4096 % 16), hexDigitLower (n / 256 % 16),
    hexDigitLower (n / 16 % 16), hexDigitLower (n % 16)]

/-- One character of a JSON string as emitted by `json.dumps` with its
default `ensure_ascii=True`. -/
def jsonEscapeChar (c : Char) : String :=
  if c = '"' then "\\\""
  else if c = '\\' then "\\\\"
  else if c = Char.ofNat 10 then "\\n"
  else if c = Char.ofNat 13 then "\\r"
  else if c = Char.ofNat 9 then "\\t"
  else if c = Char.ofNat 8 then "\\b"
  else if c = Char.ofNat 12 then "\\f"
  else if c.toNat < 0x20 then uEscape c.toNat
  else if c.toNat < 0x7F then String.singleton c
  else if c.toNat < 0x10000 then uEscape c.toNat
  else
    uEscape (0xD800 + (c.toNat - 0x10000) / 0x400) ++
      uEscape (0xDC00 + (c.toNat - 0x10000) % 0x400)

/-- A JSON string literal as emitted by `json.dumps`. -/
def jsonString (s : String) : String :=
  "\"" ++ String.join (s.toList.map jsonEscapeChar) ++ "\""

/-- `json.dumps` of one dict value. -/
def jvalDump : JVal → String
  | .str s => jsonString s
  | .bool true => "true"
  | .bool false => "false"

/-- `json.dumps(d, separators=(",", ":"))` for a flat dict. -/
def dictDump (d : Dict) : String :=
  "\x7b" ++
    String.intercalate "," (d.map (fun p => jsonString p.1 ++ ":" ++ jvalDump p.2)) ++
    "\x7d"

/-- `make_params` (`utils.py` lines 57-61): build the query string given
variables and features. -/
def make_params (query_name : String) (json_variables json_features : Dict) :
    String :=
  let features_s := quote_plus (dictDump json_features)
  let variables_s := quote_plus (dictDump json_variables)
  query_name ++ "?variables=" ++ variables_s ++ "&features=" ++ features_s

end TwitterArchive

namespace TwitterArchive

/-! ## The session model and the adaptive query engine

`requests.Session` is modelled by two oracles: `gets n` is the response to
the `n`-th `session.get` of the request, and `tokens n` is the
`guest_token` field parsed from the body of the `n`-th POST to
`GUEST_TOKEN_ENDPOINT`.  Every observable effect of `exploratory_request`
is recorded in an event trace. -/

/-- An HTTP response: status code and the joined body lines. -/
structure Resp where
  status : Nat
  body : String
deriving DecidableEq, Repr

/-- Observable effects of a request: a GET with its query params and
response, a guest-token refresh installing the given token, and a
Schema Store write (`write_request_details`) of features and variables
for a query name. -/
inductive Event where
  | get : String → Resp → Event
  | refresh : String → Event
  | write : String → Dict → Dict → Event
deriving DecidableEq, Repr

/-- The threaded request context: the session oracles with their
consumption counters, the mutable header dict, and the event trace. -/
structure Ctx where
  gets : Nat → Resp
  nGet : Nat
  tokens : Nat → String
  nTok : Nat
  headers : List (String × String)
  trace : List Event

/-- `session.get(url + status_params, headers=headers)` followed by
joining the body lines: consume the next response of the oracle. -/
def doGet (ctx : Ctx) (status_params : String) : Resp × Ctx :=
  let response := ctx.gets ctx.nGet
  (response,
   { ctx with nGet := ctx.nGet + 1, trace := ctx.trace ++ [Event.get status_params response] })

/-- `get_guest_token` (`utils.py` lines 29-36): POST to the guest-token
endpoint, parse the `guest_token` field, raise if it is falsy, install it
into the headers.  The oracle directly yields the parsed token; a raised
exception is an `Except.error`. -/
def get_guest_token (ctx : Ctx) : Except String Unit × Ctx :=
  let guest_token := ctx.tokens ctx.nTok
  let ctx2 := { ctx with nTok := ctx.nTok + 1 }
  if guest_token = "" then (Except.error "Failed to retrieve guest token", ctx2)
  else
    (Except.ok (),
     { ctx2 with
        headers := alInsert ctx2.headers "x-guest-token" guest_token,
        trace := ctx2.trace ++ [Event.refresh guest_token] })

/-- `write_request_details` (`utils.py` lines 51-55): persist features and
variables to the details file of `query_name`, recorded as a trace event. -/
def write_request_details (ctx : Ctx) (query_name : String)
    (json_features json_variables : Dict) : Ctx :=
  { ctx with trace := ctx.trace ++ [Event.write query_name json_features json_variables] }

/-- `RETRY_COUNT` (`utils.py` line 18). -/
def RETRY_COUNT : Nat := 10

/-- The `for variable in missing_variables` / `for feature in
missing_features` loops: each listed name is set to `False` in the dict. -/
def add_missing_false (d : Dict) (names : List String) : Dict :=
  names.foldl (fun d n => alInsert d n (JVal.bool false)) d

/-- The `for _ in range(RETRY_COUNT)` loop of `exploratory_request`
(`utils.py` lines 92-118), one fuel unit per iteration.  When neither
pattern matches, the source's loop body does nothing and the next
iteration sees the same state, so the recursion continues unchanged. -/
def retryLoop : Nat → String → Dict → Dict → String → String → Ctx → String × Ctx
  | 0, result, _, _, _, _, ctx => (result, ctx)
  | fuel + 1, result, json_variables, json_features, query_name, id_name, ctx =>
    let missing_variables := findall_missing_variables result
    let missing_features := missing_features_of result
    if missing_variables = [] ∧ missing_features = [] then
      retryLoop fuel result json_variables json_features query_name id_name ctx
    else
      let json_variables := add_missing_false json_variables missing_variables
      let json_features := add_missing_false json_features missing_features
      let status_params := make_params query_name json_variables json_features
      let (response, ctx2) := doGet ctx status_params
      let result := response.body
      if response.status = 200 then
        let json_variables := alDel json_variables id_name
        (result, write_request_details ctx2 query_name json_features json_variables)
      else
        retryLoop fuel result json_variables json_features query_name id_name ctx2

/-- `exploratory_request` (`utils.py` lines 63-120).  `json_features` and
`json_variables0` are the dicts read from the details file by
`read_request_details`; the url prefix is constant and omitted from the
recorded GET events, which carry `status_params`.  A raised exception is
an `Except.error` paired with the context at the raise. -/
def exploratory_request (gets : Nat → Resp) (tokens : Nat → String)
    (headers : List (String × String)) (json_features json_variables0 : Dict)
    (query_name id_name tweet_id : String) : Except String String × Ctx :=
  let ctx0 : Ctx := ⟨gets, 0, tokens, 0, headers, []⟩
  let json_variables := alInsert json_variables0 id_name (JVal.str tweet_id)
  let status_params := make_params query_name json_variables json_features
  let (response, ctx1) := doGet ctx0 status_params
  let result := response.body
  if response.status = 200 then (Except.ok result, ctx1)
  else if response.status = 429 then
    match get_guest_token ctx1 with
    | (Except.error e, ctx2) => (Except.error e, ctx2)
    | (Except.ok _, ctx2) =>
      let (response2, ctx3) := doGet ctx2 status_params
      if response2.status = 200 then (Except.ok response2.body, ctx3)
      else
        let out := retryLoop RETRY_COUNT result json_variables json_features
          query_name id_name ctx3
        (Except.ok out.1, out.2)
  else
    let out := retryLoop RETRY_COUNT result json_variables json_features
      query_name id_name ctx1
    (Except.ok out.1, out.2)

/-- Event classifiers used by the trace theorems. -/
def isGet : Event → Bool
  | .get _ _ => true
  | _ => false

def isRefresh : Event → Bool
  | .refresh _ => true
  | _ => false

def isWrite : Event → Bool
  | .write _ _ _ => true
  | _ => false

end TwitterArchive

namespace TwitterArchive

/-! ## Trace lemmas for the adaptive query engine -/

theorem alLookup_add_missing_false_not_mem (names : List String) (d : Dict) (k : String)
    (hk : k ∉ names) : alLookup (add_missing_false d names) k = alLookup d k := by
  induction names generalizing d with
  | nil => rfl
  | cons n t ih =>
    simp only [List.mem_cons, not_or] at hk
    simp only [add_missing_false, List.foldl_cons]
    rw [show (List.foldl (fun d n => alInsert d n (JVal.bool false)) (alInsert d n (JVal.bool false)) t) = add_missing_false (alInsert d n (JVal.bool false)) t from rfl]
    rw [ih (alInsert d n (JVal.bool false)) hk.2]
    exact alLookup_insert_ne _ _ _ _ (fun h => hk.1 h.symm)

theorem alLookup_add_missing_false_mem (names : List String) (d : Dict) (k : String)
    (hk : k ∈ names) : alLookup (add_missing_false d names) k = some (JVal.bool false) := by
  induction names generalizing d with
  | nil => simp at hk
  | cons n t ih =>
    simp only [add_missing_false, List.foldl_cons]
    rw [show (List.foldl (fun d n => alInsert d n (JVal.bool false)) (alInsert d n (JVal.bool false)) t) = add_missing_false (alInsert d n (JVal.bool false)) t from rfl]
    by_cases ht : k ∈ t
    · exact ih (alInsert d n (JVal.bool false)) ht
    · have hn : k = n := by
        rcases List.mem_cons.mp hk with h | h
        · exact h
        · exact absurd h ht
      rw [alLookup_add_missing_false_not_mem t _ k ht, hn]
      exact alLookup_insert_self _ _ _

theorem get?_append_cons {α : Type} (l : List α) (a : α) (t : List α) :
    (l ++ a :: t)[l.length]? = some a := by
  induction l with
  | nil => simp
  | cons x xs ih => simpa using ih

/-- One unfolding of `retryLoop` when at least one error pattern matched:
the dicts are patched, the params rebuilt, and a GET issued. -/
theorem retryLoop_step (fuel : Nat) (result : String) (vars feats : Dict)
    (qn idn : String) (ctx : Ctx)
    (hne : ¬ (findall_missing_variables result = [] ∧ missing_features_of result = [])) :
    retryLoop (fuel + 1) result vars feats qn idn ctx =
      (if (ctx.gets ctx.nGet).status = 200 then
        ((ctx.gets ctx.nGet).body,
         write_request_details
           { ctx with
             nGet := ctx.nGet + 1
             trace := ctx.trace ++ [Event.get (make_params qn
               (add_missing_false vars (findall_missing_variables result))
               (add_missing_false feats (missing_features_of result)))
               (ctx.gets ctx.nGet)] }
           qn (add_missing_false feats (missing_features_of result))
           (alDel (add_missing_false vars (findall_missing_variables result)) idn))
      else
        retryLoop fuel (ctx.gets ctx.nGet).body
          (add_missing_false vars (findall_missing_variables result))
          (add_missing_false feats (missing_features_of result)) qn idn
          { ctx with
            nGet := ctx.nGet + 1
            trace := ctx.trace ++ [Event.get (make_params qn
              (add_missing_false vars (findall_missing_variables result))
              (add_missing_false feats (missing_features_of result)))
              (ctx.gets ctx.nGet)] }) := by
  simp only [retryLoop, hne, if_false, doGet]

/-- Shape of any `retryLoop` run: headers are untouched, the trace only
grows, the new events are GETs except possibly one final Schema Store
write that immediately follows a GET with status 200, whose body is the
returned result, and whose written variables no longer contain `idn`. -/
theorem retryLoop_shape (qn idn : String) : ∀ (fuel : Nat) (result : String)
    (vars feats : Dict) (ctx : Ctx),
    (retryLoop fuel result vars feats qn idn ctx).2.headers = ctx.headers ∧
    ∃ Δ, (retryLoop fuel result vars feats qn idn ctx).2.trace = ctx.trace ++ Δ ∧
      ((∀ e ∈ Δ, isGet e = true) ∨
       ∃ Δ₀ ps r f v, Δ = Δ₀ ++ [Event.get ps r, Event.write qn f v] ∧
         (∀ e ∈ Δ₀, isGet e = true) ∧ r.status = 200 ∧
         (retryLoop fuel result vars feats qn idn ctx).1 = r.body ∧
         alLookup v idn = none) := by
  intro fuel
  induction fuel with
  | zero =>
    intro result vars feats ctx
    refine ⟨rfl, [], by simp [retryLoop], Or.inl (by simp)⟩
  | succ n ih =>
    intro result vars feats ctx
    by_cases hg : findall_missing_variables result = [] ∧ missing_features_of result = []
    · have heq : retryLoop (n + 1) result vars feats qn idn ctx =
          retryLoop n result vars feats qn idn ctx := by
        simp [retryLoop, hg]
      rw [heq]
      exact ih result vars feats ctx
    · rw [retryLoop_step n result vars feats qn idn ctx hg]
      by_cases hs : (ctx.gets ctx.nGet).status = 200
      · rw [if_pos hs]
        refine ⟨rfl,
          [Event.get (make_params qn
             (add_missing_false vars (findall_missing_variables result))
             (add_missing_false feats (missing_features_of result))) (ctx.gets ctx.nGet),
           Event.write qn (add_missing_false feats (missing_features_of result))
             (alDel (add_missing_false vars (findall_missing_variables result)) idn)],
          by simp [write_request_details],
          Or.inr ⟨[], _, _, _, _, rfl, by simp, hs, rfl, alLookup_del_self _ _⟩⟩
      · rw [if_neg hs]
        obtain ⟨hh, Δ, htr, hdisj⟩ := ih (ctx.gets ctx.nGet).body
          (add_missing_false vars (findall_missing_variables result))
          (add_missing_false feats (missing_features_of result))
          { ctx with
            nGet := ctx.nGet + 1
            trace := ctx.trace ++ [Event.get (make_params qn
              (add_missing_false vars (findall_missing_variables result))
              (add_missing_false feats (missing_features_of result)))
              (ctx.gets ctx.nGet)] }
        refine ⟨hh, Event.get (make_params qn
            (add_missing_false vars (findall_missing_variables result))
            (add_missing_false feats (missing_features_of result))) (ctx.gets ctx.nGet) :: Δ,
          by simpa using htr, ?_⟩
        rcases hdisj with hmem | ⟨Δ₀, ps, r, f, v, hΔ, hΔ₀, hr, hres, hv⟩
        · refine Or.inl ?_
          intro e he
          rcases List.mem_cons.mp he with h | h
          · subst h; rfl
          · exact hmem e h
        · refine Or.inr ⟨Event.get (make_params qn
              (add_missing_false vars (findall_missing_variables result))
              (add_missing_false feats (missing_features_of result))) (ctx.gets ctx.nGet) :: Δ₀,
            ps, r, f, v, by simp [hΔ], ?_, hr, hres, hv⟩
          intro e he
          rcases List.mem_cons.mp he with h | h
          · subst h; rfl
          · exact hΔ₀ e h

end TwitterArchive

namespace TwitterArchive

theorem isWrite_false_of_isGet (e : Event) (h : isGet e = true) : isWrite e = false := by
  cases e <;> simp [isGet, isWrite] at *

theorem isRefresh_false_of_isGet (e : Event) (h : isGet e = true) : isRefresh e = false := by
  cases e <;> simp [isGet, isRefresh] at *

/-- **C1.** For every response body scanned by the retry loop of
`exploratory_request`: when at least one error pattern matches, each
variable name matched by `Query violation: Variable 'X'` is present with
value `False` in the patched variable dict, each name of the
comma-separated list of the first `The following features cannot be
null: ...` match is present with value `False` in the patched feature
dict, and the next event of the run is a GET whose query string is
rebuilt by `make_params` from exactly those patched dicts. -/
theorem C1_missing_names_added_and_retried
    (fuel : Nat) (result : String) (vars feats : Dict) (qn idn : String) (ctx : Ctx)
    (hne : ¬ (findall_missing_variables result = [] ∧ missing_features_of result = [])) :
    (∀ v ∈ findall_missing_variables result,
       alLookup (add_missing_false vars (findall_missing_variables result)) v =
         some (JVal.bool false)) ∧
    (∀ f ∈ missing_features_of result,
       alLookup (add_missing_false feats (missing_features_of result)) f =
         some (JVal.bool false)) ∧
    (retryLoop (fuel + 1) result vars feats qn idn ctx).2.trace[ctx.trace.length]? =
      some (Event.get (make_params qn
        (add_missing_false vars (findall_missing_variables result))
        (add_missing_false feats (missing_features_of result))) (ctx.gets ctx.nGet)) := by
  refine ⟨fun v hv => alLookup_add_missing_false_mem _ _ _ hv,
          fun f hf => alLookup_add_missing_false_mem _ _ _ hf, ?_⟩
  have key : ∀ (g : Event) (rest : List Event),
      (ctx.trace ++ [g] ++ rest)[ctx.trace.length]? = some g := by
    intro g rest
    rw [List.append_assoc, List.singleton_append]
    exact get?_append_cons _ _ _
  rw [retryLoop_step fuel result vars feats qn idn ctx hne]
  by_cases hs : (ctx.gets ctx.nGet).status = 200
  · rw [if_pos hs]
    simp only [write_request_details]
    exact key _ _
  · rw [if_neg hs]
    obtain ⟨-, Δ, htr, -⟩ := retryLoop_shape qn idn fuel (ctx.gets ctx.nGet).body
      (add_missing_false vars (findall_missing_variables result))
      (add_missing_false feats (missing_features_of result))
      { ctx with
        nGet := ctx.nGet + 1
        trace := ctx.trace ++ [Event.get (make_params qn
          (add_missing_false vars (findall_missing_variables result))
          (add_missing_false feats (missing_features_of result)))
          (ctx.gets ctx.nGet)] }
    rw [htr]
    exact key _ _

/-- Witness for C1: a concrete body naming variable `rico` and features
`fa, fb`, scanned with empty dicts and a fresh context. -/
theorem C1_missing_names_added_and_retried_witness :
    (∀ v ∈ findall_missing_variables ("Query violation: Variable " ++ aposS ++ "rico" ++ aposS ++
        " The following features cannot be null: fa, fb"),
       alLookup (add_missing_false [] (findall_missing_variables ("Query violation: Variable " ++
         aposS ++ "rico" ++ aposS ++ " The following features cannot be null: fa, fb"))) v =
         some (JVal.bool false)) ∧
    (∀ f ∈ missing_features_of ("Query violation: Variable " ++ aposS ++ "rico" ++ aposS ++
        " The following features cannot be null: fa, fb"),
       alLookup (add_missing_false [] (missing_features_of ("Query violation: Variable " ++
         aposS ++ "rico" ++ aposS ++ " The following features cannot be null: fa, fb"))) f =
         some (JVal.bool false)) ∧
    (retryLoop (9 + 1) ("Query violation: Variable " ++ aposS ++ "rico" ++ aposS ++
        " The following features cannot be null: fa, fb") [] [] "q" "id"
        (Ctx.mk (fun _ => Resp.mk 500 "x") 0 (fun _ => "t") 0 [] [])).2.trace[
        (Ctx.mk (fun _ => Resp.mk 500 "x") 0 (fun _ => "t") 0 [] [] : Ctx).trace.length]? =
      some (Event.get (make_params "q"
        (add_missing_false [] (findall_missing_variables ("Query violation: Variable " ++ aposS ++
          "rico" ++ aposS ++ " The following features cannot be null: fa, fb")))
        (add_missing_false [] (missing_features_of ("Query violation: Variable " ++ aposS ++
          "rico" ++ aposS ++ " The following features cannot be null: fa, fb"))))
        ((Ctx.mk (fun _ => Resp.mk 500 "x") 0 (fun _ => "t") 0 [] [] : Ctx).gets 0)) :=
  C1_missing_names_added_and_retried 9 _ [] [] "q" "id"
    (Ctx.mk (fun _ => Resp.mk 500 "x") 0 (fun _ => "t") 0 [] []) (by decide)

end TwitterArchive

namespace TwitterArchive

/-- Lift of `retryLoop_shape` to the write-characterisation used by C2:
if the context's trace is write-free when the loop starts, the whole run
either stays write-free or ends in exactly one Schema Store write, placed
immediately after a GET with status 200 whose body is the loop's result,
with the caller-specific identifier deleted from the written variables. -/
theorem retryLoop_write_characterisation (fuel : Nat) (result : String)
    (vars feats : Dict) (qn idn : String) (ctx : Ctx)
    (hctx : ∀ e ∈ ctx.trace, isWrite e = false) :
    (∀ e ∈ (retryLoop fuel result vars feats qn idn ctx).2.trace, isWrite e = false) ∨
    ∃ pre ps r f v,
      (retryLoop fuel result vars feats qn idn ctx).2.trace =
        pre ++ [Event.get ps r, Event.write qn f v] ∧
      (∀ e ∈ pre, isWrite e = false) ∧ r.status = 200 ∧
      (retryLoop fuel result vars feats qn idn ctx).1 = r.body ∧
      alLookup v idn = none := by
  obtain ⟨-, Δ, htr, hdisj⟩ := retryLoop_shape qn idn fuel result vars feats ctx
  rcases hdisj with hmem | ⟨Δ₀, ps, r, f, v, hΔ, hΔ₀, hr, hres, hv⟩
  · refine Or.inl ?_
    intro e he
    rw [htr] at he
    rcases List.mem_append.mp he with h | h
    · exact hctx e h
    · exact isWrite_false_of_isGet e (hmem e h)
  · refine Or.inr ⟨ctx.trace ++ Δ₀, ps, r, f, v, ?_, ?_, hr, hres, hv⟩
    · rw [htr, hΔ, List.append_assoc]
    · intro e he
      rcases List.mem_append.mp he with h | h
      · exact hctx e h
      · exact isWrite_false_of_isGet e (hΔ₀ e h)

/-- **C2.** Both halves of the claim.  Positive half: whenever a
schema-patch retry of the loop returns HTTP 200 (patterns matched, the
next response has status 200), the loop stops immediately, returning that
response's body, and persists to the Schema Store — for this query name —
the patched features and the patched variables with the caller-specific
identifier `idn` deleted (so the written variables no longer contain
`idn`); the write is the run's final event.  Frame half: over a whole
`exploratory_request` run, the Schema Store is written at no other point:
either the trace is write-free, or it ends in exactly one write, placed
immediately after a GET with status 200 whose body is the returned
result, for the request's query name, with `id_name` absent from the
persisted variables. -/
theorem C2_store_written_only_on_successful_retry :
    (∀ (fuel : Nat) (result : String) (vars feats : Dict) (qn idn : String) (ctx : Ctx),
      ¬ (findall_missing_variables result = [] ∧ missing_features_of result = []) →
      (ctx.gets ctx.nGet).status = 200 →
      retryLoop (fuel + 1) result vars feats qn idn ctx =
        ((ctx.gets ctx.nGet).body,
         write_request_details
           { ctx with
             nGet := ctx.nGet + 1
             trace := ctx.trace ++ [Event.get (make_params qn
               (add_missing_false vars (findall_missing_variables result))
               (add_missing_false feats (missing_features_of result)))
               (ctx.gets ctx.nGet)] }
           qn (add_missing_false feats (missing_features_of result))
           (alDel (add_missing_false vars (findall_missing_variables result)) idn)) ∧
      alLookup (alDel (add_missing_false vars (findall_missing_variables result)) idn)
        idn = none) ∧
    (∀ (gets : Nat → Resp) (tokens : Nat → String) (headers : List (String × String))
      (json_features json_variables0 : Dict) (query_name id_name tweet_id : String),
      (∀ e ∈ (exploratory_request gets tokens headers json_features json_variables0
          query_name id_name tweet_id).2.trace, isWrite e = false) ∨
      ∃ pre ps r f v,
        (exploratory_request gets tokens headers json_features json_variables0
          query_name id_name tweet_id).2.trace =
            pre ++ [Event.get ps r, Event.write query_name f v] ∧
        (∀ e ∈ pre, isWrite e = false) ∧ r.status = 200 ∧
        (exploratory_request gets tokens headers json_features json_variables0
          query_name id_name tweet_id).1 = Except.ok r.body ∧
        alLookup v id_name = none) := by
  constructor
  · intro fuel result vars feats qn idn ctx hne hs
    refine ⟨?_, alLookup_del_self _ _⟩
    rw [retryLoop_step fuel result vars feats qn idn ctx hne]
    rw [if_pos hs]
  · intro gets tokens headers json_features json_variables0 query_name id_name tweet_id
    unfold exploratory_request
    simp only [doGet]
    by_cases h200 : (gets 0).status = 200
    · rw [if_pos h200]
      refine Or.inl ?_
      intro e he
      simp at he
      subst he; rfl
    · rw [if_neg h200]
      by_cases h429 : (gets 0).status = 429
      · rw [if_pos h429]
        unfold get_guest_token
        by_cases htok : tokens 0 = ""
        · rw [if_pos htok]
          refine Or.inl ?_
          intro e he
          simp at he
          subst he; rfl
        · rw [if_neg htok]
          simp only [doGet]
          by_cases h2 : (gets 1).status = 200
          · rw [if_pos h2]
            refine Or.inl ?_
            intro e he
            simp at he
            rcases he with rfl | rfl | rfl <;> rfl
          · rw [if_neg h2]
            have hc := retryLoop_write_characterisation RETRY_COUNT (gets 0).body
              (alInsert json_variables0 id_name (JVal.str tweet_id)) json_features
              query_name id_name
              (Ctx.mk gets (0 + 1 + 1) tokens (0 + 1)
                (alInsert headers "x-guest-token" (tokens 0))
                ([] ++ [Event.get (make_params query_name
                    (alInsert json_variables0 id_name (JVal.str tweet_id)) json_features) (gets 0)] ++
                  [Event.refresh (tokens 0)] ++
                  [Event.get (make_params query_name
                    (alInsert json_variables0 id_name (JVal.str tweet_id)) json_features)
                    (gets (0 + 1))]))
              (by
                intro e he
                simp at he
                rcases he with rfl | rfl | rfl <;> rfl)
            rcases hc with hl | ⟨pre, ps, r, f, v, htr, hpre, hr, hres, hv⟩
            · exact Or.inl hl
            · exact Or.inr ⟨pre, ps, r, f, v, htr, hpre, hr, by rw [hres], hv⟩
      · rw [if_neg h429]
        have hc := retryLoop_write_characterisation RETRY_COUNT (gets 0).body
          (alInsert json_variables0 id_name (JVal.str tweet_id)) json_features
          query_name id_name
          (Ctx.mk gets (0 + 1) tokens 0 headers
            ([] ++ [Event.get (make_params query_name
              (alInsert json_variables0 id_name (JVal.str tweet_id)) json_features) (gets 0)]))
          (by
            intro e he
            simp at he
            subst he; rfl)
        rcases hc with hl | ⟨pre, ps, r, f, v, htr, hpre, hr, hres, hv⟩
        · exact Or.inl hl
        · exact Or.inr ⟨pre, ps, r, f, v, htr, hpre, hr, by rw [hres], hv⟩


/-- The error body of the C2 witness: the first response names a missing
variable. -/
def c2body : String := "Query violation: Variable " ++ aposS ++ "withV2" ++ aposS

/-- Concrete session for the C2 witness: the first GET fails with the
missing-variable body, the schema-patch retry succeeds. -/
def c2gets : Nat → Resp := fun n =>
  if n = 0 then Resp.mk 400 c2body else Resp.mk 200 "fine"

def c2tokens : Nat → String := fun _ => "tok"

/-- The context at which the retry loop of the witness run starts: after
the first GET. -/
def c2ctx : Ctx :=
  Ctx.mk c2gets 1 c2tokens 0 []
    [Event.get (make_params "q" (alInsert [] "id" (JVal.str "5")) []) (Resp.mk 400 c2body)]

/-- Witness for C2: a concrete run whose schema-patch retry returns 200
really returns the 200 body and records exactly one Schema Store write,
holding the patched features and the variables with the id removed; and
the positive half applied at that run's loop entry. -/
theorem C2_store_written_only_on_successful_retry_witness :
    (exploratory_request c2gets c2tokens [] [] [] "q" "id" "5").1 = Except.ok "fine" ∧
    List.filter isWrite
      (exploratory_request c2gets c2tokens [] [] [] "q" "id" "5").2.trace =
      [Event.write "q" [] [("withV2", JVal.bool false)]] ∧
    (retryLoop (9 + 1) c2body (alInsert [] "id" (JVal.str "5")) [] "q" "id" c2ctx =
      ((c2ctx.gets c2ctx.nGet).body,
       write_request_details
         { c2ctx with
           nGet := c2ctx.nGet + 1
           trace := c2ctx.trace ++ [Event.get (make_params "q"
             (add_missing_false (alInsert [] "id" (JVal.str "5"))
               (findall_missing_variables c2body))
             (add_missing_false [] (missing_features_of c2body)))
             (c2ctx.gets c2ctx.nGet)] }
         "q" (add_missing_false [] (missing_features_of c2body))
         (alDel (add_missing_false (alInsert [] "id" (JVal.str "5"))
           (findall_missing_variables c2body)) "id")) ∧
     alLookup (alDel (add_missing_false (alInsert [] "id" (JVal.str "5"))
       (findall_missing_variables c2body)) "id") "id" = none) := by
  refine ⟨rfl, rfl, ?_⟩
  exact C2_store_written_only_on_successful_retry.1 9 c2body
    (alInsert [] "id" (JVal.str "5")) [] "q" "id" c2ctx (by decide) rfl

end TwitterArchive

namespace TwitterArchive

/-- **C3.** For a request whose first response is HTTP 429 (and whose
token refresh succeeds, i.e. the token endpoint yields a non-falsy
token): the first three events are the original GET, exactly one
guest-token refresh installing the fetched token, and a retry GET with
the same query params; no further refresh ever happens in the run; and if
the retry returns HTTP 200, the run stops there, the caller receives that
200 body, and the token is installed in the headers. -/
theorem C3_rate_limited_request_refreshes_once_and_retries
    (gets : Nat → Resp) (tokens : Nat → String) (headers : List (String × String))
    (json_features json_variables0 : Dict) (query_name id_name tweet_id : String)
    (b0 tok : String) (h0 : gets 0 = Resp.mk 429 b0) (htok : tokens 0 = tok)
    (hne : ¬ tok = "") :
    (exploratory_request gets tokens headers json_features json_variables0
        query_name id_name tweet_id).2.trace.take 3 =
      [Event.get (make_params query_name (alInsert json_variables0 id_name
          (JVal.str tweet_id)) json_features) (Resp.mk 429 b0),
       Event.refresh tok,
       Event.get (make_params query_name (alInsert json_variables0 id_name
          (JVal.str tweet_id)) json_features) (gets 1)] ∧
    List.countP (fun e => isRefresh e)
      (exploratory_request gets tokens headers json_features json_variables0
        query_name id_name tweet_id).2.trace = 1 ∧
    ((gets 1).status = 200 →
      (exploratory_request gets tokens headers json_features json_variables0
          query_name id_name tweet_id).1 = Except.ok (gets 1).body ∧
      (exploratory_request gets tokens headers json_features json_variables0
          query_name id_name tweet_id).2.trace =
        [Event.get (make_params query_name (alInsert json_variables0 id_name
            (JVal.str tweet_id)) json_features) (Resp.mk 429 b0),
         Event.refresh tok,
         Event.get (make_params query_name (alInsert json_variables0 id_name
            (JVal.str tweet_id)) json_features) (gets 1)] ∧
      (exploratory_request gets tokens headers json_features json_variables0
          query_name id_name tweet_id).2.headers =
        alInsert headers "x-guest-token" tok) := by
  unfold exploratory_request
  unfold get_guest_token
  by_cases h2 : (gets 1).status = 200
  · simp [doGet, h0, htok, hne, h2, isRefresh, List.countP_cons]
  · simp [doGet, h0, htok, hne, h2]
    obtain ⟨hh, Δ, htr, hdisj⟩ := retryLoop_shape query_name id_name RETRY_COUNT b0
      (alInsert json_variables0 id_name (JVal.str tweet_id)) json_features
      (Ctx.mk gets 2 tokens 1 (alInsert headers "x-guest-token" tok)
        [Event.get (make_params query_name (alInsert json_variables0 id_name
            (JVal.str tweet_id)) json_features) (Resp.mk 429 b0),
         Event.refresh tok,
         Event.get (make_params query_name (alInsert json_variables0 id_name
            (JVal.str tweet_id)) json_features) (gets 1)])
    have hΔnoref : ∀ e ∈ Δ, isRefresh e = false := by
      rcases hdisj with hmem | ⟨Δ₀, ps, r, f, v, hΔ, hΔ₀, -, -, -⟩
      · exact fun e he => isRefresh_false_of_isGet e (hmem e he)
      · intro e he
        rw [hΔ] at he
        rcases List.mem_append.mp he with h | h
        · exact isRefresh_false_of_isGet e (hΔ₀ e h)
        · rcases List.mem_cons.mp h with h | h
          · subst h; rfl
          · simp only [List.mem_singleton] at h; subst h; rfl
    have hzero : List.countP (fun e => isRefresh e) Δ = 0 := by
      rw [List.countP_eq_zero]
      intro e he
      simp [hΔnoref e he]
    constructor
    · rw [htr]
      simp only [List.cons_append, List.nil_append]
      rfl
    · rw [htr]
      simp only [List.cons_append, List.nil_append, List.countP_cons, hzero, isRefresh]
      simp [hzero]
      intro a ha
      exact hΔnoref a ha

end TwitterArchive

namespace TwitterArchive

/-- Concrete session for the C3 witness: first GET is rate-limited,
every later GET succeeds. -/
def c3gets : Nat → Resp := fun n =>
  if n = 0 then Resp.mk 429 "limit" else Resp.mk 200 "okbody"

/-- Concrete token oracle for the C3 witness. -/
def c3tokens : Nat → String := fun _ => "tok"

/-- Witness for C3 at a concrete rate-limited session. -/
theorem C3_rate_limited_request_refreshes_once_and_retries_witness :
    (exploratory_request c3gets c3tokens [] [] [] "q" "id" "5").2.trace.take 3 =
      [Event.get (make_params "q" (alInsert [] "id" (JVal.str "5")) []) (Resp.mk 429 "limit"),
       Event.refresh "tok",
       Event.get (make_params "q" (alInsert [] "id" (JVal.str "5")) []) (c3gets 1)] ∧
    List.countP (fun e => isRefresh e)
      (exploratory_request c3gets c3tokens [] [] [] "q" "id" "5").2.trace = 1 ∧
    ((c3gets 1).status = 200 →
      (exploratory_request c3gets c3tokens [] [] [] "q" "id" "5").1 =
        Except.ok (c3gets 1).body ∧
      (exploratory_request c3gets c3tokens [] [] [] "q" "id" "5").2.trace =
        [Event.get (make_params "q" (alInsert [] "id" (JVal.str "5")) []) (Resp.mk 429 "limit"),
         Event.refresh "tok",
         Event.get (make_params "q" (alInsert [] "id" (JVal.str "5")) []) (c3gets 1)] ∧
      (exploratory_request c3gets c3tokens [] [] [] "q" "id" "5").2.headers =
        alInsert [] "x-guest-token" "tok") :=
  C3_rate_limited_request_refreshes_once_and_retries c3gets c3tokens [] [] [] "q" "id" "5"
    "limit" "tok" rfl rfl (by decide)

end TwitterArchive

namespace TwitterArchive

/-! ## JSON values and the result normalizer (`parse_tweet`, `get_tweet`)

Parsed response bodies (`json.loads`) are modelled by a `Json` tree;
Python `d[k]` on a dict is `jgetE` (raising `KeyError` when absent, which
an `Except.error` models); `k in d` is `(jget d k).isSome`.  `d[k]` on a
non-dict raises a `TypeError` in Python; `jget` returns `none` there, so
`jgetE` reports it with the same error channel. -/
inductive Json where
  | null : Json
  | bool : Bool → Json
  | num : Int → Json
  | str : String → Json
  | arr : List Json → Json
  | obj : List (String × Json) → Json

/-- `d.get(k)` on a parsed JSON object. -/
def jget : Json → String → Option Json
  | .obj fields, k => (fields.find? (fun p => p.1 = k)).map (fun p => p.2)
  | _, _ => none

/-- `d[k]`: raising lookup. -/
def jgetE (j : Json) (k : String) : Except String Json :=
  match jget j k with
  | some v => Except.ok v
  | none => Except.error ("KeyError: " ++ k)

/-- Python `==` between a JSON value and a string literal: true exactly
for the equal string, false for a different string or a non-string. -/
def jstrEq (v : Json) (s : String) : Bool :=
  match v with
  | .str t => t = s
  | _ => false

/-- Python `str()` of a JSON value, as interpolated into f-strings by the
source's error messages (only scalars occur there). -/
def jsonToDisplay : Json → String
  | .str s => s
  | .num n => toString n
  | .bool true => "True"
  | .bool false => "False"
  | .null => "None"
  | .arr _ => "<list>"
  | .obj _ => "<dict>"

/-- `parse_tweet` (`utils.py` lines 161-190): unwrap the result envelope
(`Tweet` directly, `TweetWithVisibilityResults` via its nested `tweet`
field; any other tag reaches the raise statement, which first evaluates
`tweet_entry["entryid"]`), extract the legacy record and inject the
reduced user record onto it as field `user`. -/
def parse_tweet (tweet_entry : Json) : Except String Json := do
  let content ← jgetE tweet_entry "content"
  let item_content ← jgetE content "itemContent"
  let tweet_results ← jgetE item_content "tweet_results"
  let result ← jgetE tweet_results "result"
  let typename ← jgetE result "__typename"
  let tweet ←
    if jstrEq typename "Tweet" then pure result
    else if jstrEq typename "TweetWithVisibilityResults" then jgetE result "tweet"
    else do
      let entryid ← jgetE tweet_entry "entryid"
      Except.error ("Tweet result for " ++ jsonToDisplay entryid ++
        " has unknown type: " ++ jsonToDisplay typename)
  let legacy ← jgetE tweet "legacy"
  let core ← jgetE tweet "core"
  let user_results ← jgetE core "user_results"
  let uresult ← jgetE user_results "result"
  let user ← jgetE uresult "legacy"
  let basic_user ← ["name", "profile_image_url_https", "screen_name", "verified"].foldlM
    (fun (acc : List (String × Json)) attr => do
      let v ← jgetE user attr
      pure (alInsert acc attr v)) []
  let entities ← jgetE user "entities"
  let basic_user ←
    if (jget entities "url").isSome then do
      let url_field ← jgetE entities "url"
      let urls_field ← jgetE url_field "urls"
      match urls_field with
      | .arr urls => do
          let expanded ← urls.mapM (fun u => jgetE u "expanded_url")
          pure (alInsert basic_user "urls" (Json.arr expanded))
      | _ => Except.error "TypeError"
    else pure basic_user
  match legacy with
  | .obj fields => pure (Json.obj (alInsert fields "user" (Json.obj basic_user)))
  | _ => Except.error "TypeError"

/-- The entry scan of `get_tweet` (`utils.py` lines 222-232): break (and
return `None`) on the tombstone entry, skip other entries of the thread,
parse the focal tweet's entry. -/
def scan_entries (tweet_id : String) : List Json → Except String (Option Json)
  | [] => Except.ok none
  | entry :: rest => do
    let entryid ← jgetE entry "entryId"
    if jstrEq entryid ("tombstone-" ++ tweet_id) then Except.ok none
    else if ¬ jstrEq entryid ("tweet-" ++ tweet_id) then scan_entries tweet_id rest
    else (parse_tweet entry).map some

/-- The envelope traversal of `get_tweet` (`utils.py` lines 218-219):
`status_json['data']['threaded_conversation_with_injections']
['instructions'][0]["entries"]`. -/
def tweet_entries (status_json : Json) : Except String (List Json) := do
  let data ← jgetE status_json "data"
  let conv ← jgetE data "threaded_conversation_with_injections"
  let instructions ← jgetE conv "instructions"
  match instructions with
  | .arr (first :: _) =>
      (do
        let entries ← jgetE first "entries"
        match entries with
        | .arr es => Except.ok es
        | _ => Except.error "TypeError")
  | .arr [] => Except.error "IndexError"
  | _ => Except.error "TypeError"

/-- `status_json["errors"][0]["message"]`, the argument of the
`logging.error` call at `utils.py` line 216, which Python evaluates
eagerly before the `return None`: indexing an empty list raises
`IndexError`; indexing a non-list with `0` (or a `[0]`-indexed value that
is not a dict) raises `TypeError`/`KeyError` — conflated here into one
`TypeError` on the same error channel; a first element without the
`message` key raises `KeyError`. -/
def errors_message (errors_val : Json) : Except String Json :=
  match errors_val with
  | .arr [] => Except.error "IndexError"
  | .arr (first :: _) => jgetE first "message"
  | _ => Except.error "TypeError"

/-- `TwitterGuestAPI.get_tweet` (`utils.py` lines 207-232) after the
response body has been obtained and parsed: when the parsed body has a
top-level `errors` key, the logging call eagerly reads
`status_json["errors"][0]["message"]` (raising on a malformed value) and
then `None` is returned; otherwise the instruction entry list is scanned
for the focal tweet. -/
def get_tweet_from_json (status_json : Json) (tweet_id : String) :
    Except String (Option Json) :=
  match jget status_json "errors" with
  | some errors_val => do
    let _ ← errors_message errors_val
    pure none
  | none => do
    let es ← tweet_entries status_json
    scan_entries tweet_id es

/-- The canonical conversation envelope wrapping an entry list, as
consumed by `get_tweet`. -/
def mk_conversation (entries : List Json) : Json :=
  Json.obj [("data", Json.obj [("threaded_conversation_with_injections",
    Json.obj [("instructions", Json.arr [Json.obj [("entries", Json.arr entries)]])])])]

end TwitterArchive

namespace TwitterArchive

/-! ## The checkpointed batch runners (`get_likes.py`, `get_follows.py`) -/

/-- The Result Map (`likes.json` / `accounts.json`): entity id to
normalized record, or `none` for a fetched-but-deleted entity. -/
abbrev RMap := List (String × Option Json)

/-- The outcome of one `download.get_tweet` call, as seen by the loop in
`get_liked_tweets`: a value (possibly `None`), a `KeyboardInterrupt`, or
any other exception. -/
inductive FetchR where
  | val : Option Json → FetchR
  | kbd : FetchR
  | exc : String → FetchR

/-- How the metadata loop ended. -/
inductive Outcome where
  | done : Outcome
  | kbd : Outcome
  | exc : String → Outcome
deriving DecidableEq, Repr

/-- The loop of `get_liked_tweets` (`get_likes.py` lines 55-61) over the
ids extracted from the contents, together with `main`'s exception
handling: ids already present in the dict are skipped; otherwise the
tweet is fetched and stored under its id; an exception stops the loop
with the dict accumulated so far.  Returns the dict, the outcome, and the
ids for which a network fetch was performed. -/
def get_liked_tweets_run : List String → RMap → (String → FetchR) →
    RMap × Outcome × List String
  | [], output_dict, _ => (output_dict, Outcome.done, [])
  | tweet_id :: rest, output_dict, fetch =>
    if alContains output_dict tweet_id then get_liked_tweets_run rest output_dict fetch
    else
      match fetch tweet_id with
      | FetchR.val v =>
        let out := get_liked_tweets_run rest (alInsert output_dict tweet_id v) fetch
        (out.1, out.2.1, tweet_id :: out.2.2)
      | FetchR.kbd => (output_dict, Outcome.kbd, [tweet_id])
      | FetchR.exc m => (output_dict, Outcome.exc m, [tweet_id])

/-- `get_liked_tweets` (`get_likes.py` lines 51-61): iterate over the
`LIKE_REGEX` matches of the archive contents. -/
def get_liked_tweets (contents : String) (output_dict : RMap)
    (fetch : String → FetchR) : RMap × Outcome × List String :=
  get_liked_tweets_run (findall_tweet_ids contents) output_dict fetch

/-- The observable outcome of one `main` invocation of `get_likes.py`:
what was written to `likes.json` (if anything) and which later stages
ran. -/
structure MainLog where
  persisted : Option RMap
  ranImages : Bool
  ranVideos : Bool

/-- The stage logic of `main` (`get_likes.py` lines 131-154): unless
metadata is skipped, run the fetch loop, catching every exception; a
keyboard interrupt sets `cancelled`; the dict is then always written; a
cancelled run returns before the image and video stages. -/
def main_run (skip_metadata skip_images skip_videos : Bool) (ids : List String)
    (like_dict : RMap) (fetch : String → FetchR) : MainLog :=
  if skip_metadata then MainLog.mk none (!skip_images) (!skip_videos)
  else
    let out := get_liked_tweets_run ids like_dict fetch
    let cancelled := match out.2.1 with
      | Outcome.kbd => true
      | _ => false
    if cancelled then MainLog.mk (some out.1) false false
    else MainLog.mk (some out.1) (!skip_images) (!skip_videos)

/-- The id-collection loop of `get_accounts` (`get_follows.py` lines
22-27): ids already present in the dict are skipped, the others are
appended in order. -/
def collect_new_ids (ids : List String) (output_dict : RMap) : List String :=
  ids.foldl
    (fun account_ids account_id =>
      if alContains output_dict account_id then account_ids
      else account_ids ++ [account_id]) []

/-- Modelled from the spec: `TwitterGuestAPI.get_accounts`, called at
`get_follows.py` line 28, is absent from the sources (`utils.py` only
defines the single-id `get_account`).  Per spec §4.5 the engine fetches
metadata for the given ids — possibly batching them into groups, which
does not change the resulting mapping — and returns records keyed by
id. -/
def api_get_accounts (fetch : String → Json) (account_ids : List String) : RMap :=
  account_ids.map (fun account_id => (account_id, some (fetch account_id)))

/-- Python `dict.update(new)`. -/
def rmUpdate (d : RMap) (new : RMap) : RMap :=
  new.foldl (fun d p => alInsert d p.1 p.2) d

/-- `get_accounts` (`get_follows.py` lines 15-29): collect the ids from
the file contents that are not yet in the dict, fetch them (via the
spec-modelled `api_get_accounts`), and merge the result into the dict.
Returns the merged dict and the ids fetched. -/
def get_accounts (contents : String) (output_dict : RMap)
    (fetch : String → Json) : RMap × List String :=
  let account_ids := collect_new_ids (findall_account_ids contents) output_dict
  (rmUpdate output_dict (api_get_accounts fetch account_ids), account_ids)

/-! ## Media download (`download_videos`, `get_likes.py` lines 78-102) -/

/-- Python truthiness of a JSON value (`if not tweet: continue`). -/
def jfalsy : Json → Bool
  | .null => true
  | .bool b => !b
  | .num n => n = 0
  | .str s => s = ""
  | .arr xs => xs.isEmpty
  | .obj fields => fields.isEmpty

/-- The body of the best-variant selection loop (`get_likes.py` lines
93-98): skip variants without a declared bitrate; keep the variant when
no best is held yet or its bitrate exceeds the best's.  Non-integer
declared bitrates would raise a `TypeError` in Python when compared; the
comparison case keeps `best` there, and the theorems restrict to integer
bitrates. -/
def best_variant_step (best : Option Json) (variant : Json) : Option Json :=
  match jget variant "bitrate" with
  | none => best
  | some variant_bitrate =>
    match best with
    | none => some variant
    | some b =>
      match jget b "bitrate", variant_bitrate with
      | some (Json.num bb), Json.num vb => if bb < vb then some variant else best
      | _, _ => best

/-- The best-variant selection for one media entry: `best_variant` starts
as the empty (falsy) dict and is replaced along the loop. -/
def best_variant (variants : List Json) : Option Json :=
  variants.foldl best_variant_step none

/-- One media entry of `download_videos`: when it has `video_info`,
select the best variant and download its url, or log an error (counted)
when no variant qualifies. -/
def download_videos_entry (acc : List String × Nat) (entry : Json) :
    Except String (List String × Nat) :=
  if (jget entry "video_info").isSome then do
    let video_info ← jgetE entry "video_info"
    let variants_field ← jgetE video_info "variants"
    match variants_field with
    | Json.arr variants =>
      match best_variant variants with
      | some bv => do
        let url ← jgetE bv "url"
        match url with
        | Json.str u => Except.ok (acc.1 ++ [u], acc.2)
        | _ => Except.error "TypeError"
      | none => Except.ok (acc.1, acc.2 + 1)
    | _ => Except.error "TypeError"
  else Except.ok acc

/-- One tweet of `download_videos`: falsy (deleted) tweets are skipped; a
missing `extended_entities`/`media` key is a caught `KeyError`
(continue); every media entry is processed in order. -/
def download_videos_tweet (acc : List String × Nat) (tweet : Json) :
    Except String (List String × Nat) :=
  if jfalsy tweet then Except.ok acc
  else
    match jget tweet "extended_entities" with
    | none => Except.ok acc
    | some ee =>
      match jget ee "media" with
      | none => Except.ok acc
      | some (Json.arr media) => media.foldlM download_videos_entry acc
      | some _ => Except.error "TypeError"

/-- `download_videos` (`get_likes.py` lines 78-102) over the values of
the Result Map: returns the downloaded urls in order and the number of
logged `Failed to find best variant` errors. -/
def download_videos (tweets : List Json) : Except String (List String × Nat) :=
  tweets.foldlM download_videos_tweet ([], 0)

end TwitterArchive

namespace TwitterArchive

/-! ## Concrete response fixtures used by witnesses and evaluations -/

/-- A user legacy record with the four injected attributes and empty
entities. -/
def fixture_user_legacy : Json :=
  Json.obj [("name", Json.str "N"), ("profile_image_url_https", Json.str "P"),
    ("screen_name", Json.str "S"), ("verified", Json.bool true),
    ("entities", Json.obj [])]

/-- A tweet result envelope with the given `__typename`. -/
def fixture_result (typename : String) : Json :=
  Json.obj [("__typename", Json.str typename),
    ("legacy", Json.obj [("full_text", Json.str "hi")]),
    ("core", Json.obj [("user_results", Json.obj [("result",
      Json.obj [("legacy", fixture_user_legacy)])])])]

/-- A conversation entry for tweet id 1 wrapping `fixture_result`. -/
def fixture_entry (typename : String) : Json :=
  Json.obj [("entryId", Json.str "tweet-1"),
    ("content", Json.obj [("itemContent", Json.obj [("tweet_results",
      Json.obj [("result", fixture_result typename)])])])]

/-- An entry whose result is a `TweetWithVisibilityResults` wrapping a
tweet. -/
def fixture_entry_visibility : Json :=
  Json.obj [("entryId", Json.str "tweet-1"),
    ("content", Json.obj [("itemContent", Json.obj [("tweet_results",
      Json.obj [("result", Json.obj [("__typename", Json.str "TweetWithVisibilityResults"),
        ("tweet", fixture_result "Tweet")])])])])]

/-- An entry that additionally carries a lowercase `entryid` key, the
spelling the raise statement of `parse_tweet` reads. -/
def fixture_entry_lower (typename : String) : Json :=
  Json.obj [("entryId", Json.str "tweet-1"), ("entryid", Json.str "tweet-1"),
    ("content", Json.obj [("itemContent", Json.obj [("tweet_results",
      Json.obj [("result", fixture_result typename)])])])]

/-- The normalized record `parse_tweet` produces from `fixture_entry`. -/
def fixture_parsed : Json :=
  Json.obj [("full_text", Json.str "hi"),
    ("user", Json.obj [("name", Json.str "N"), ("profile_image_url_https", Json.str "P"),
      ("screen_name", Json.str "S"), ("verified", Json.bool true)])]

/-- A tombstone entry for tweet id 1. -/
def c5deleted : Json := Json.obj [("entryId", Json.str "tombstone-1")]

/-- A thread entry for a different tweet. -/
def c5other : Json := Json.obj [("entryId", Json.str "tweet-99")]


theorem scan_entries_tombstone_first (tweet_id : String) : ∀ (pre post : List Json)
    (tomb : Json),
    (∀ e ∈ pre, ∃ v, jget e "entryId" = some v ∧
        jstrEq v ("tweet-" ++ tweet_id) = false) →
    jget tomb "entryId" = some (Json.str ("tombstone-" ++ tweet_id)) →
    scan_entries tweet_id (pre ++ tomb :: post) = Except.ok none := by
  intro pre
  induction pre with
  | nil =>
    intro post tomb hpre htomb
    have hok : jgetE tomb "entryId" = Except.ok (Json.str ("tombstone-" ++ tweet_id)) := by
      simp [jgetE, htomb]
    have heq : jstrEq (Json.str ("tombstone-" ++ tweet_id)) ("tombstone-" ++ tweet_id) = true := by
      simp [jstrEq]
    simp [scan_entries, hok, Bind.bind, Except.bind, heq]
  | cons e t ih =>
    intro post tomb hpre htomb
    obtain ⟨v, hv, hvne⟩ := hpre e (List.mem_cons_self e t)
    have hok : jgetE e "entryId" = Except.ok v := by simp [jgetE, hv]
    rw [List.cons_append]
    by_cases hts : jstrEq v ("tombstone-" ++ tweet_id) = true
    · simp [scan_entries, hok, Bind.bind, Except.bind, hts]
    · have hts2 : jstrEq v ("tombstone-" ++ tweet_id) = false :=
        Bool.eq_false_iff.mpr hts
      simp only [scan_entries, hok, Bind.bind, Except.bind, hts2, hvne]
      simp only [Bool.false_eq_true, if_false, not_false_eq_true, if_true]
      exact ih post tomb (fun e2 he2 => hpre e2 (List.mem_cons_of_mem e he2)) htomb

/-- **C5.** Tombstone precedence in `get_tweet`: when the instruction
entry list contains a `tombstone-{id}` entry positioned before any
`tweet-{id}` entry (every earlier entry has an entry identifier that is
not `tweet-{id}`), the scan returns `None` — regardless of what follows
the tombstone, in particular of a valid `tweet-{id}` entry later in the
list. -/
theorem C5_tombstone_precedence (tweet_id : String) (pre post : List Json) (tomb : Json)
    (hpre : ∀ e ∈ pre, ∃ v, jget e "entryId" = some v ∧
        jstrEq v ("tweet-" ++ tweet_id) = false)
    (htomb : jget tomb "entryId" = some (Json.str ("tombstone-" ++ tweet_id))) :
    get_tweet_from_json (mk_conversation (pre ++ tomb :: post)) tweet_id =
      Except.ok none := by
  have henv : get_tweet_from_json (mk_conversation (pre ++ tomb :: post)) tweet_id =
      scan_entries tweet_id (pre ++ tomb :: post) := rfl
  rw [henv]
  exact scan_entries_tombstone_first tweet_id pre post tomb hpre htomb

/-- Witness for C5: a thread entry, then the tombstone, then a fully
valid tweet entry; the result is still `None`. -/
theorem C5_tombstone_precedence_witness :
    get_tweet_from_json (mk_conversation ([c5other] ++ c5deleted ::
      [fixture_entry "Tweet"])) "1" = Except.ok none :=
  C5_tombstone_precedence "1" [c5other] [fixture_entry "Tweet"] c5deleted
    (by
      intro e he
      simp only [List.mem_singleton] at he
      subst he
      exact ⟨Json.str "tweet-99", rfl, by decide⟩)
    rfl

/-- **C6.** Evaluation of `parse_tweet` at the failing input: for an
entry carrying the real-world `entryId` key (the spelling `get_tweet`
itself reads at line 223) whose result has an unrecognized `__typename`,
`parse_tweet` raises `KeyError` on `entryid` (line 171 reads
`tweet_entry["entryid"]`), so the raised error never names the
unrecognized tag; the intended message is produced only if the entry
also carries a lowercase `entryid` key, which `get_tweet` entries do
not; and for the two known tags the envelope is unwrapped to the legacy
record with the injected user. -/
theorem C6_unknown_tag_raises_keyerror_not_shape_error :
    parse_tweet (fixture_entry "SomeNewTag") = Except.error "KeyError: entryid" ∧
    parse_tweet (fixture_entry_lower "SomeNewTag") =
      Except.error "Tweet result for tweet-1 has unknown type: SomeNewTag" ∧
    parse_tweet (fixture_entry "Tweet") = Except.ok fixture_parsed ∧
    parse_tweet fixture_entry_visibility = Except.ok fixture_parsed :=
  ⟨rfl, rfl, rfl, rfl⟩

end TwitterArchive

namespace TwitterArchive

/-! ## Lemmas on the batch runners -/

theorem run_contains_mono : ∀ (ids : List String) (d : RMap) (fetch : String → FetchR)
    (tid : String), alContains d tid = true →
    alContains (get_liked_tweets_run ids d fetch).1 tid = true := by
  intro ids
  induction ids with
  | nil =>
    intro d fetch tid h
    simpa [get_liked_tweets_run] using h
  | cons i rest ih =>
    intro d fetch tid h
    simp only [get_liked_tweets_run]
    by_cases hc : alContains d i = true
    · rw [if_pos hc]
      exact ih d fetch tid h
    · rw [if_neg hc]
      cases hf : fetch i with
      | val v => simpa using ih _ fetch tid (alContains_insert_of d tid i v h)
      | kbd => simpa using h
      | exc m => simpa using h

theorem run_skips_present : ∀ (ids : List String) (d : RMap) (fetch : String → FetchR)
    (tid : String), alContains d tid = true →
    tid ∉ (get_liked_tweets_run ids d fetch).2.2 ∧
    alLookup (get_liked_tweets_run ids d fetch).1 tid = alLookup d tid := by
  intro ids
  induction ids with
  | nil =>
    intro d fetch tid h
    simp [get_liked_tweets_run]
  | cons i rest ih =>
    intro d fetch tid h
    simp only [get_liked_tweets_run]
    by_cases hc : alContains d i = true
    · rw [if_pos hc]
      exact ih d fetch tid h
    · rw [if_neg hc]
      have hne : i ≠ tid := by
        intro hcontra
        rw [hcontra] at hc
        exact hc h
      cases hf : fetch i with
      | val v =>
        have hrec := ih (alInsert d i v) fetch tid (alContains_insert_of d tid i v h)
        refine ⟨?_, ?_⟩
        · intro hmem
          simp only [List.mem_cons] at hmem
          rcases hmem with hmem | hmem
          · exact hne hmem.symm
          · exact hrec.1 hmem
        · rw [show alLookup ((get_liked_tweets_run rest (alInsert d i v) fetch).1,
              (get_liked_tweets_run rest (alInsert d i v) fetch).2.1,
              i :: (get_liked_tweets_run rest (alInsert d i v) fetch).2.2).1 tid =
              alLookup (get_liked_tweets_run rest (alInsert d i v) fetch).1 tid from rfl]
          rw [hrec.2]
          exact alLookup_insert_ne d tid i v hne
      | kbd => simp [hne.symm]
      | exc m => simp [hne.symm]

theorem run_leaves_all_present : ∀ (ids : List String) (d : RMap)
    (fetch : String → FetchR), (get_liked_tweets_run ids d fetch).2.1 = Outcome.done →
    ∀ tid ∈ ids, alContains (get_liked_tweets_run ids d fetch).1 tid = true := by
  intro ids
  induction ids with
  | nil =>
    intro d fetch _ tid htid
    simp at htid
  | cons i rest ih =>
    intro d fetch hdone tid htid
    simp only [get_liked_tweets_run] at hdone ⊢
    by_cases hc : alContains d i = true
    · rw [if_pos hc] at hdone ⊢
      rcases List.mem_cons.mp htid with h | h
      · subst h
        exact run_contains_mono rest d fetch tid hc
      · exact ih d fetch hdone tid h
    · rw [if_neg hc] at hdone ⊢
      cases hf : fetch i with
      | val v =>
        rw [hf] at hdone
        dsimp only at hdone ⊢
        rcases List.mem_cons.mp htid with h | h
        · subst h
          exact run_contains_mono rest _ fetch tid (alContains_insert_self d tid v)
        · exact ih _ fetch hdone tid h
      | kbd =>
        rw [hf] at hdone
        simp at hdone
      | exc m =>
        rw [hf] at hdone
        simp at hdone

theorem run_noop_when_all_present : ∀ (ids : List String) (d : RMap)
    (fetch : String → FetchR), (∀ tid ∈ ids, alContains d tid = true) →
    get_liked_tweets_run ids d fetch = (d, Outcome.done, []) := by
  intro ids
  induction ids with
  | nil => intro d fetch _; rfl
  | cons i rest ih =>
    intro d fetch h
    simp only [get_liked_tweets_run]
    rw [if_pos (h i (List.mem_cons_self i rest))]
    exact ih d fetch (fun tid htid => h tid (List.mem_cons_of_mem i htid))

end TwitterArchive

namespace TwitterArchive

theorem collect_aux_mem_acc : ∀ (ids : List String) (d : RMap) (acc : List String)
    (tid : String), tid ∈ acc →
    tid ∈ ids.foldl (fun account_ids account_id =>
      if alContains d account_id then account_ids else account_ids ++ [account_id]) acc := by
  intro ids
  induction ids with
  | nil => intro d acc tid h; simpa using h
  | cons i rest ih =>
    intro d acc tid h
    simp only [List.foldl_cons]
    by_cases hc : alContains d i = true
    · rw [if_pos hc]
      exact ih d acc tid h
    · rw [if_neg (by simp [hc])]
      exact ih d (acc ++ [i]) tid (List.mem_append.mpr (Or.inl h))

theorem collect_aux_not_mem : ∀ (ids : List String) (d : RMap) (acc : List String)
    (tid : String), alContains d tid = true → tid ∉ acc →
    tid ∉ ids.foldl (fun account_ids account_id =>
      if alContains d account_id then account_ids else account_ids ++ [account_id]) acc := by
  intro ids
  induction ids with
  | nil => intro d acc tid _ h; simpa using h
  | cons i rest ih =>
    intro d acc tid hd h
    simp only [List.foldl_cons]
    by_cases hc : alContains d i = true
    · rw [if_pos hc]
      exact ih d acc tid hd h
    · rw [if_neg (by simp [hc])]
      refine ih d (acc ++ [i]) tid hd ?_
      intro hmem
      rcases List.mem_append.mp hmem with hmem | hmem
      · exact h hmem
      · simp only [List.mem_singleton] at hmem
        subst hmem
        exact hc hd

theorem collect_not_mem_of_contains (ids : List String) (d : RMap) (tid : String)
    (h : alContains d tid = true) : tid ∉ collect_new_ids ids d :=
  collect_aux_not_mem ids d [] tid h (by simp)

theorem collect_mem : ∀ (ids : List String) (d : RMap) (tid : String),
    tid ∈ ids → alContains d tid = false → tid ∈ collect_new_ids ids d := by
  intro ids
  have aux : ∀ (l : List String) (d : RMap) (acc : List String) (tid : String),
      tid ∈ l → alContains d tid = false →
      tid ∈ l.foldl (fun account_ids account_id =>
        if alContains d account_id then account_ids else account_ids ++ [account_id]) acc := by
    intro l
    induction l with
    | nil => intro d acc tid h _; simp at h
    | cons i rest ih =>
      intro d acc tid h hfalse
      simp only [List.foldl_cons]
      rcases List.mem_cons.mp h with h | h
      · subst h
        rw [if_neg (by simp [hfalse])]
        exact collect_aux_mem_acc rest d (acc ++ [tid]) tid
          (List.mem_append.mpr (Or.inr (List.mem_singleton.mpr rfl)))
      · by_cases hc : alContains d i = true
        · rw [if_pos hc]
          exact ih d acc tid h hfalse
        · rw [if_neg (by simp [hc])]
          exact ih d (acc ++ [i]) tid h hfalse
  exact fun d tid h hf => aux ids d [] tid h hf

theorem collect_sub : ∀ (ids : List String) (d : RMap) (tid : String),
    tid ∈ collect_new_ids ids d → alContains d tid = false := by
  have aux : ∀ (l : List String) (d : RMap) (acc : List String),
      (∀ x ∈ acc, alContains d x = false) →
      ∀ tid ∈ l.foldl (fun account_ids account_id =>
        if alContains d account_id then account_ids else account_ids ++ [account_id]) acc,
      alContains d tid = false := by
    intro l
    induction l with
    | nil => intro d acc hacc tid h; exact hacc tid (by simpa using h)
    | cons i rest ih =>
      intro d acc hacc tid h
      simp only [List.foldl_cons] at h
      by_cases hc : alContains d i = true
      · rw [if_pos hc] at h
        exact ih d acc hacc tid h
      · rw [if_neg (by simp [hc])] at h
        refine ih d (acc ++ [i]) ?_ tid h
        intro x hx
        rcases List.mem_append.mp hx with hx | hx
        · exact hacc x hx
        · simp only [List.mem_singleton] at hx
          subst hx
          exact Bool.eq_false_iff.mpr hc
  exact fun ids d tid h => aux ids d [] (by simp) tid h

theorem collect_empty_of_all_present (ids : List String) (d : RMap)
    (h : ∀ tid ∈ ids, alContains d tid = true) : collect_new_ids ids d = [] := by
  have aux : ∀ (l : List String) (acc : List String),
      (∀ tid ∈ l, alContains d tid = true) →
      l.foldl (fun account_ids account_id =>
        if alContains d account_id then account_ids else account_ids ++ [account_id]) acc = acc := by
    intro l
    induction l with
    | nil => intro acc _; rfl
    | cons i rest ih =>
      intro acc hl
      simp only [List.foldl_cons]
      rw [if_pos (hl i (List.mem_cons_self i rest))]
      exact ih acc (fun tid htid => hl tid (List.mem_cons_of_mem i htid))
  exact aux ids [] h

theorem rmUpdate_lookup_not_key : ∀ (new : RMap) (d : RMap) (k : String),
    (∀ p ∈ new, ¬ p.1 = k) → alLookup (rmUpdate d new) k = alLookup d k := by
  intro new
  induction new with
  | nil => intro d k _; rfl
  | cons p t ih =>
    intro d k h
    simp only [rmUpdate, List.foldl_cons]
    rw [show (t.foldl (fun d p => alInsert d p.1 p.2) (alInsert d p.1 p.2)) =
        rmUpdate (alInsert d p.1 p.2) t from rfl]
    rw [ih (alInsert d p.1 p.2) k (fun q hq => h q (List.mem_cons_of_mem p hq))]
    exact alLookup_insert_ne d k p.1 p.2 (h p (List.mem_cons_self p t))

theorem rmUpdate_contains_of : ∀ (new : RMap) (d : RMap) (k : String),
    alContains d k = true → alContains (rmUpdate d new) k = true := by
  intro new
  induction new with
  | nil => intro d k h; exact h
  | cons p t ih =>
    intro d k h
    simp only [rmUpdate, List.foldl_cons]
    exact ih (alInsert d p.1 p.2) k (alContains_insert_of d k p.1 p.2 h)

theorem rmUpdate_contains_key : ∀ (new : RMap) (d : RMap) (k : String),
    k ∈ new.map (fun p => p.1) → alContains (rmUpdate d new) k = true := by
  intro new
  induction new with
  | nil => intro d k h; simp at h
  | cons p t ih =>
    intro d k h
    simp only [rmUpdate, List.foldl_cons]
    simp only [List.map_cons, List.mem_cons] at h
    by_cases ht : k ∈ t.map (fun p => p.1)
    · exact ih (alInsert d p.1 p.2) k ht
    · have hk : k = p.1 := by
        rcases h with h | h
        · exact h
        · exact absurd h ht
      subst hk
      exact rmUpdate_contains_of t (alInsert d p.1 p.2) p.1 (alContains_insert_self d p.1 p.2)

theorem rmUpdate_lookup_mapped (g : String → Option Json) :
    ∀ (ids : List String) (d : RMap) (k : String), k ∈ ids →
    alLookup (rmUpdate d (ids.map (fun i => (i, g i)))) k = some (g k) := by
  intro ids
  induction ids with
  | nil => intro d k h; simp at h
  | cons i t ih =>
    intro d k h
    simp only [List.map_cons, rmUpdate, List.foldl_cons]
    rw [show (List.foldl (fun d p => alInsert d p.1 p.2) (alInsert d i (g i))
        (t.map (fun i => (i, g i)))) = rmUpdate (alInsert d i (g i)) (t.map (fun i => (i, g i)))
        from rfl]
    by_cases ht : k ∈ t
    · exact ih (alInsert d i (g i)) k ht
    · have hk : k = i := by
        rcases List.mem_cons.mp h with h | h
        · exact h
        · exact absurd h ht
      subst hk
      rw [rmUpdate_lookup_not_key (t.map (fun i => (i, g i))) _ k ?hkeys]
      · exact alLookup_insert_self d k (g k)
      case hkeys =>
        intro p hp
        rcases List.mem_map.mp hp with ⟨x, hx, rfl⟩
        intro hcontra
        exact ht (hcontra ▸ hx)

end TwitterArchive

namespace TwitterArchive

/-- **C4.** Ids already present as keys of the loaded Result Map
(including keys mapped to null) trigger no network fetch and their
entries are never overwritten, in both the likes runner and the accounts
runner; consequently a second run over the map persisted by a completed
first run performs zero additional per-id fetches (and leaves the map
unchanged). -/
theorem C4_present_ids_skipped_and_reruns_fetch_nothing (contents : String)
    (dict : RMap) (fetch : String → FetchR) (afetch : String → Json) :
    (∀ tid, alContains dict tid = true →
      tid ∉ (get_liked_tweets contents dict fetch).2.2 ∧
      alLookup (get_liked_tweets contents dict fetch).1 tid = alLookup dict tid) ∧
    ((get_liked_tweets contents dict fetch).2.1 = Outcome.done →
      get_liked_tweets contents (get_liked_tweets contents dict fetch).1 fetch =
        ((get_liked_tweets contents dict fetch).1, Outcome.done, [])) ∧
    (∀ tid, alContains dict tid = true →
      tid ∉ (get_accounts contents dict afetch).2 ∧
      alLookup (get_accounts contents dict afetch).1 tid = alLookup dict tid) ∧
    get_accounts contents (get_accounts contents dict afetch).1 afetch =
      ((get_accounts contents dict afetch).1, []) := by
  refine ⟨?_, ?_, ?_, ?_⟩
  · intro tid h
    exact run_skips_present (findall_tweet_ids contents) dict fetch tid h
  · intro hdone
    exact run_noop_when_all_present (findall_tweet_ids contents)
      (get_liked_tweets contents dict fetch).1 fetch
      (run_leaves_all_present (findall_tweet_ids contents) dict fetch hdone)
  · intro tid h
    refine ⟨collect_not_mem_of_contains (findall_account_ids contents) dict tid h, ?_⟩
    apply rmUpdate_lookup_not_key
    intro p hp
    rcases List.mem_map.mp hp with ⟨x, hx, rfl⟩
    intro hcontra
    have : alContains dict tid = false :=
      collect_sub (findall_account_ids contents) dict tid (hcontra ▸ hx)
    rw [this] at h
    exact Bool.false_ne_true h
  · have hall : ∀ id ∈ findall_account_ids contents,
        alContains (get_accounts contents dict afetch).1 id = true := by
      intro id hid
      by_cases hc : alContains dict id = true
      · exact rmUpdate_contains_of _ dict id hc
      · have hmem : id ∈ collect_new_ids (findall_account_ids contents) dict :=
          collect_mem (findall_account_ids contents) dict id hid (Bool.eq_false_iff.mpr hc)
        exact rmUpdate_contains_key _ dict id
          (List.mem_map.mpr ⟨(id, some (afetch id)),
            List.mem_map.mpr ⟨id, hmem, rfl⟩, rfl⟩)
    have hcempty : collect_new_ids (findall_account_ids contents)
        (get_accounts contents dict afetch).1 = [] :=
      collect_empty_of_all_present _ _ hall
    show (rmUpdate (get_accounts contents dict afetch).1
        (api_get_accounts afetch (collect_new_ids (findall_account_ids contents)
          (get_accounts contents dict afetch).1)),
      collect_new_ids (findall_account_ids contents)
        (get_accounts contents dict afetch).1) =
      ((get_accounts contents dict afetch).1, [])
    rw [hcempty]
    rfl

/-- Archive contents for the C4 witness, holding two liked-tweet ids and
two account ids; id 1 is already in the loaded map. -/
def c4contents : String :=
  "\"tweetId\" : \"1\" \"tweetId\" : \"2\" \"accountId\" : \"1\" \"accountId\" : \"3\""

def c4dict : RMap := [("1", none)]

def c4fetch : String → FetchR := fun i => FetchR.val (some (Json.str i))

def c4afetch : String → Json := fun i => Json.str i

/-- Witness for C4 at a concrete archive and map. -/
theorem C4_present_ids_skipped_and_reruns_fetch_nothing_witness :
    ("1" ∉ (get_liked_tweets c4contents c4dict c4fetch).2.2 ∧
      alLookup (get_liked_tweets c4contents c4dict c4fetch).1 "1" = alLookup c4dict "1") ∧
    get_liked_tweets c4contents (get_liked_tweets c4contents c4dict c4fetch).1 c4fetch =
      ((get_liked_tweets c4contents c4dict c4fetch).1, Outcome.done, []) ∧
    ("1" ∉ (get_accounts c4contents c4dict c4afetch).2 ∧
      alLookup (get_accounts c4contents c4dict c4afetch).1 "1" = alLookup c4dict "1") ∧
    get_accounts c4contents (get_accounts c4contents c4dict c4afetch).1 c4afetch =
      ((get_accounts c4contents c4dict c4afetch).1, []) := by
  obtain ⟨h1, h2, h3, h4⟩ :=
    C4_present_ids_skipped_and_reruns_fetch_nothing c4contents c4dict c4fetch c4afetch
  exact ⟨h1 "1" (by decide), h2 (by rfl), h3 "1" (by decide), h4⟩

/-- **C7.** When the metadata stage is interrupted by a keyboard
interrupt, `main` still persists the Result Map accumulated so far to
`likes.json` and returns immediately: neither the image stage nor the
video stage of that invocation runs. -/
theorem C7_interrupt_persists_and_skips_stages (skip_images skip_videos : Bool)
    (ids : List String) (dict : RMap) (fetch : String → FetchR)
    (hkbd : (get_liked_tweets_run ids dict fetch).2.1 = Outcome.kbd) :
    main_run false skip_images skip_videos ids dict fetch =
      MainLog.mk (some (get_liked_tweets_run ids dict fetch).1) false false := by
  unfold main_run
  simp [hkbd]

/-- Witness for C7: the very first fetch is interrupted. -/
theorem C7_interrupt_persists_and_skips_stages_witness :
    main_run false false false ["7"] [] (fun _ => FetchR.kbd) =
      MainLog.mk (some (get_liked_tweets_run ["7"] [] (fun _ => FetchR.kbd)).1)
        false false :=
  C7_interrupt_persists_and_skips_stages false false ["7"] [] (fun _ => FetchR.kbd) rfl

/-- **C8.** In accounts mode, every account id found in the input that is
not yet a key of the Result Map is fetched (it is part of the id list
handed to the — spec-modelled — multi-id lookup `get_accounts`) and its
record is merged into the Result Map before persisting. -/
theorem C8_new_account_ids_fetched_and_merged (contents : String) (dict : RMap)
    (afetch : String → Json) (account_id : String)
    (hmem : account_id ∈ findall_account_ids contents)
    (hnew : alContains dict account_id = false) :
    account_id ∈ (get_accounts contents dict afetch).2 ∧
    alLookup (get_accounts contents dict afetch).1 account_id =
      some (some (afetch account_id)) := by
  constructor
  · exact collect_mem (findall_account_ids contents) dict account_id hmem hnew
  · exact rmUpdate_lookup_mapped (fun i => some (afetch i))
      (collect_new_ids (findall_account_ids contents) dict) dict account_id
      (collect_mem (findall_account_ids contents) dict account_id hmem hnew)

/-- Witness for C8: account id 77 is found in the contents, absent from
the map, fetched and merged. -/
theorem C8_new_account_ids_fetched_and_merged_witness :
    "77" ∈ (get_accounts "\"accountId\" : \"77\"" [] c4afetch).2 ∧
    alLookup (get_accounts "\"accountId\" : \"77\"" [] c4afetch).1 "77" =
      some (some (c4afetch "77")) :=
  C8_new_account_ids_fetched_and_merged "\"accountId\" : \"77\"" [] c4afetch "77"
    (by decide) (by decide)

end TwitterArchive

namespace TwitterArchive

theorem scan_entries_no_match (tweet_id : String) : ∀ (entries : List Json),
    (∀ e ∈ entries, ∃ v, jget e "entryId" = some v ∧
        jstrEq v ("tweet-" ++ tweet_id) = false ∧
        jstrEq v ("tombstone-" ++ tweet_id) = false) →
    scan_entries tweet_id entries = Except.ok none := by
  intro entries
  induction entries with
  | nil => intro _; rfl
  | cons e t ih =>
    intro h
    obtain ⟨v, hv, hvtw, hvts⟩ := h e (List.mem_cons_self e t)
    have hok : jgetE e "entryId" = Except.ok v := by simp [jgetE, hv]
    simp only [scan_entries, hok, Bind.bind, Except.bind, hvts, hvtw]
    simp only [Bool.false_eq_true, if_false, not_false_eq_true, if_true]
    exact ih (fun e2 he2 => h e2 (List.mem_cons_of_mem e he2))

/-- Counterexample for C10 as stated: for the body `{"errors": []}` —
which has a top-level `errors` key — `get_tweet` does not return null:
the eager evaluation of `status_json["errors"][0]["message"]` in the
logging call raises `IndexError`. -/
theorem C10_empty_errors_list_raises_counterexample :
    get_tweet_from_json (Json.obj [("errors", Json.arr [])]) "1" =
      Except.error "IndexError" := rfl

/-- **C10 (amended).** `get_tweet` yields null in more cases than the
tombstone: when the parsed response has a top-level `errors` key whose
first element's `message` can be read (the shape of real API error
responses; a malformed `errors` value such as an empty list instead
raises out of the eager logging access), and when no entry of the
instruction list carries the focal `tweet-{id}` identifier; and in
`get_liked_tweets` such a null is recorded in the Result Map under the
id — the same value a deleted post gets — so the id is a present key and
is skipped on re-runs. -/
theorem C10_null_for_errors_and_missing_entry_recorded_as_tombstone :
    (∀ (status_json : Json) (tweet_id : String) (errors_val msg : Json),
      jget status_json "errors" = some errors_val →
      errors_message errors_val = Except.ok msg →
      get_tweet_from_json status_json tweet_id = Except.ok none) ∧
    (∀ (tweet_id : String) (entries : List Json),
      (∀ e ∈ entries, ∃ v, jget e "entryId" = some v ∧
          jstrEq v ("tweet-" ++ tweet_id) = false ∧
          jstrEq v ("tombstone-" ++ tweet_id) = false) →
      get_tweet_from_json (mk_conversation entries) tweet_id = Except.ok none) ∧
    (∀ (ids : List String) (dict : RMap) (fetch : String → FetchR) (tid : String),
      alContains dict tid = false → fetch tid = FetchR.val none →
      alLookup (get_liked_tweets_run (tid :: ids) dict fetch).1 tid = some none ∧
      alContains (get_liked_tweets_run (tid :: ids) dict fetch).1 tid = true) := by
  refine ⟨?_, ?_, ?_⟩
  · intro status_json tweet_id errors_val msg hev hmsg
    simp [get_tweet_from_json, hev, hmsg, Functor.map, Except.map]
  · intro tweet_id entries h
    have henv : get_tweet_from_json (mk_conversation entries) tweet_id =
        scan_entries tweet_id entries := rfl
    rw [henv]
    exact scan_entries_no_match tweet_id entries h
  · intro ids dict fetch tid hnotin hfetch
    simp only [get_liked_tweets_run]
    rw [if_neg (by simp [hnotin])]
    rw [hfetch]
    dsimp only
    constructor
    · rw [(run_skips_present ids (alInsert dict tid none) fetch tid
        (alContains_insert_self dict tid none)).2]
      exact alLookup_insert_self dict tid none
    · exact run_contains_mono ids (alInsert dict tid none) fetch tid
        (alContains_insert_self dict tid none)

/-- Witness for amended C10: a body whose `errors` list holds an error
object with a message, a thread without the focal tweet, and a fetch
loop recording a null result for id 9. -/
theorem C10_null_for_errors_and_missing_entry_recorded_witness :
    get_tweet_from_json
      (Json.obj [("errors", Json.arr [Json.obj [("message", Json.str "gone")]])]) "1" =
      Except.ok none ∧
    get_tweet_from_json (mk_conversation [c5other]) "1" = Except.ok none ∧
    (alLookup (get_liked_tweets_run ["9"] [] (fun _ => FetchR.val none)).1 "9" =
        some none ∧
      alContains (get_liked_tweets_run ["9"] [] (fun _ => FetchR.val none)).1 "9" =
        true) := by
  obtain ⟨h1, h2, h3⟩ := C10_null_for_errors_and_missing_entry_recorded_as_tombstone
  refine ⟨h1 (Json.obj [("errors", Json.arr [Json.obj [("message", Json.str "gone")]])])
      "1" (Json.arr [Json.obj [("message", Json.str "gone")]]) (Json.str "gone") rfl rfl,
    ?_, h3 [] [] (fun _ => FetchR.val none) "9" rfl rfl⟩
  refine h2 "1" [c5other] ?_
  intro e he
  simp only [List.mem_singleton] at he
  subst he
  exact ⟨Json.str "tweet-99", rfl, by decide, by decide⟩

end TwitterArchive

namespace TwitterArchive

/-- Invariant of the best-variant fold: starting from an accumulator
that (when set) holds an integer bitrate, the result (when set) is one of
the accumulator or the variants, carries an integer bitrate that bounds
every declared integer bitrate among the variants and the accumulator's
bitrate; and the result is unset only when the accumulator was unset and
no variant declares a bitrate. -/
theorem best_variant_fold_spec : ∀ (variants : List Json) (acc : Option Json),
    (∀ w ∈ variants, ∀ b, jget w "bitrate" = some b → ∃ n, b = Json.num n) →
    (∀ b, acc = some b → ∃ n, jget b "bitrate" = some (Json.num n)) →
    (∀ v, variants.foldl best_variant_step acc = some v →
      (acc = some v ∨ v ∈ variants) ∧
      ∃ n, jget v "bitrate" = some (Json.num n) ∧
        (∀ w ∈ variants, ∀ m, jget w "bitrate" = some (Json.num m) → m ≤ n) ∧
        (∀ b nb, acc = some b → jget b "bitrate" = some (Json.num nb) → nb ≤ n)) ∧
    (variants.foldl best_variant_step acc = none →
      acc = none ∧ ∀ w ∈ variants, jget w "bitrate" = none) := by
  intro variants
  induction variants with
  | nil =>
    intro acc _ hacc
    constructor
    · intro v hv
      simp only [List.foldl_nil] at hv
      obtain ⟨n, hn⟩ := hacc v hv
      refine ⟨Or.inl hv, n, hn, by simp, ?_⟩
      intro b nb hb hnb
      rw [hv] at hb
      cases hb
      rw [hn] at hnb
      cases hnb
      exact le_refl n
    · intro hnone
      simp only [List.foldl_nil] at hnone
      exact ⟨hnone, by simp⟩
  | cons w t ih =>
    intro acc hnum hacc
    have hnumt : ∀ x ∈ t, ∀ b, jget x "bitrate" = some b → ∃ n, b = Json.num n :=
      fun x hx => hnum x (List.mem_cons_of_mem w hx)
    cases hj : jget w "bitrate" with
    | none =>
      have hstep : best_variant_step acc w = acc := by
        simp [best_variant_step, hj]
      constructor
      · intro v hv
        simp only [List.foldl_cons, hstep] at hv
        obtain ⟨hmem, n, hn, hbound, haccb⟩ := (ih acc hnumt hacc).1 v hv
        refine ⟨?_, n, hn, ?_, haccb⟩
        · rcases hmem with h | h
          · exact Or.inl h
          · exact Or.inr (List.mem_cons_of_mem w h)
        · intro x hx m hm
          rcases List.mem_cons.mp hx with h | h
          · subst h
            rw [hj] at hm
            cases hm
          · exact hbound x h m hm
      · intro hnone
        simp only [List.foldl_cons, hstep] at hnone
        obtain ⟨ha, hall⟩ := (ih acc hnumt hacc).2 hnone
        refine ⟨ha, ?_⟩
        intro x hx
        rcases List.mem_cons.mp hx with h | h
        · subst h; exact hj
        · exact hall x h
    | some b =>
      obtain ⟨nw, rfl⟩ := hnum w (List.mem_cons_self w t) b hj
      cases hc : acc with
      | none =>
        have hstep : best_variant_step none w = some w := by
          simp [best_variant_step, hj]
        have hacc2 : ∀ b2, some w = some b2 → ∃ n, jget b2 "bitrate" = some (Json.num n) := by
          intro b2 hb2
          cases hb2
          exact ⟨nw, hj⟩
        constructor
        · intro v hv
          simp only [List.foldl_cons, hstep] at hv
          obtain ⟨hmem, n, hn, hbound, haccb⟩ := (ih (some w) hnumt hacc2).1 v hv
          refine ⟨?_, n, hn, ?_, ?_⟩
          · rcases hmem with h | h
            · cases h
              exact Or.inr (List.mem_cons_self w t)
            · exact Or.inr (List.mem_cons_of_mem w h)
          · intro x hx m hm
            rcases List.mem_cons.mp hx with h | h
            · subst h
              rw [hj] at hm
              cases hm
              exact haccb x nw rfl hj
            · exact hbound x h m hm
          · intro b2 nb hb2 _
            exact Option.noConfusion hb2
        · intro hnone
          simp only [List.foldl_cons, hstep] at hnone
          obtain ⟨ha, -⟩ := (ih (some w) hnumt hacc2).2 hnone
          cases ha
      | some bb =>
        obtain ⟨nbb, hbb⟩ := hacc bb hc
        by_cases hlt : nbb < nw
        · have hstep : best_variant_step (some bb) w = some w := by
            simp [best_variant_step, hj, hbb, hlt]
          have hacc2 : ∀ b2, some w = some b2 →
              ∃ n, jget b2 "bitrate" = some (Json.num n) := by
            intro b2 hb2
            cases hb2
            exact ⟨nw, hj⟩
          constructor
          · intro v hv
            simp only [List.foldl_cons, hstep] at hv
            obtain ⟨hmem, n, hn, hbound, haccb⟩ := (ih (some w) hnumt hacc2).1 v hv
            have hwn : nw ≤ n := haccb w nw rfl hj
            refine ⟨?_, n, hn, ?_, ?_⟩
            · rcases hmem with h | h
              · cases h
                exact Or.inr (List.mem_cons_self w t)
              · exact Or.inr (List.mem_cons_of_mem w h)
            · intro x hx m hm
              rcases List.mem_cons.mp hx with h | h
              · subst h
                rw [hj] at hm
                cases hm
                exact hwn
              · exact hbound x h m hm
            · intro b2 nb hb2 hnb
              cases hb2
              rw [hbb] at hnb
              cases hnb
              exact le_trans (le_of_lt hlt) hwn
          · intro hnone
            simp only [List.foldl_cons, hstep] at hnone
            obtain ⟨ha, -⟩ := (ih (some w) hnumt hacc2).2 hnone
            cases ha
        · have hstep : best_variant_step (some bb) w = some bb := by
            simp [best_variant_step, hj, hbb, hlt]
          have hacc2 : ∀ b2, some bb = some b2 →
              ∃ n, jget b2 "bitrate" = some (Json.num n) := by
            intro b2 hb2
            cases hb2
            exact ⟨nbb, hbb⟩
          constructor
          · intro v hv
            simp only [List.foldl_cons, hstep] at hv
            obtain ⟨hmem, n, hn, hbound, haccb⟩ := (ih (some bb) hnumt hacc2).1 v hv
            have hbbn : nbb ≤ n := haccb bb nbb rfl hbb
            refine ⟨?_, n, hn, ?_, ?_⟩
            · rcases hmem with h | h
              · exact Or.inl h
              · exact Or.inr (List.mem_cons_of_mem w h)
            · intro x hx m hm
              rcases List.mem_cons.mp hx with h | h
              · subst h
                rw [hj] at hm
                cases hm
                exact le_trans (le_of_not_lt hlt) hbbn
              · exact hbound x h m hm
            · intro b2 nb hb2 hnb
              cases hb2
              rw [hbb] at hnb
              cases hnb
              exact hbbn
          · intro hnone
            simp only [List.foldl_cons, hstep] at hnone
            obtain ⟨ha, -⟩ := (ih (some bb) hnumt hacc2).2 hnone
            cases ha

theorem best_variant_fold_all_none : ∀ (variants : List Json) (acc : Option Json),
    (∀ w ∈ variants, jget w "bitrate" = none) →
    variants.foldl best_variant_step acc = acc := by
  intro variants
  induction variants with
  | nil => intro acc _; rfl
  | cons w t ih =>
    intro acc h
    have hstep : best_variant_step acc w = acc := by
      simp [best_variant_step, h w (List.mem_cons_self w t)]
    simp only [List.foldl_cons, hstep]
    exact ih acc (fun x hx => h x (List.mem_cons_of_mem w hx))

end TwitterArchive

namespace TwitterArchive

/-- The variants of the spec's concrete example: bitrate 100 with url A,
bitrate 500 with url B, and a variant with no bitrate and url C. -/
def c9vA : Json := Json.obj [("bitrate", Json.num 100), ("url", Json.str "A")]

def c9vB : Json := Json.obj [("bitrate", Json.num 500), ("url", Json.str "B")]

def c9vC : Json := Json.obj [("url", Json.str "C")]

def c9variants : List Json := [c9vA, c9vB, c9vC]

/-- A tweet whose only video entry has no variant with a declared
bitrate. -/
def c9tweet_no_variant : Json :=
  Json.obj [("extended_entities", Json.obj [("media", Json.arr
    [Json.obj [("video_info", Json.obj [("variants", Json.arr [c9vC])])]])])]

/-- A tweet whose video entry carries the example variant list. -/
def c9tweet_best : Json :=
  Json.obj [("extended_entities", Json.obj [("media", Json.arr
    [Json.obj [("video_info", Json.obj [("variants", Json.arr c9variants)])]])])]

/-- **C9.** Best-variant selection of `download_videos`: on the spec's
example variants the url B (bitrate 500) is selected; in general the
selected variant is one of the entry's variants, declares a bitrate, and
its bitrate bounds every declared bitrate; when no variant declares a
bitrate nothing is selected; and a media entry with no qualifying
variant downloads nothing, logs one error, and the run continues with
the remaining tweets (here downloading B afterwards). -/
theorem C9_video_best_variant_selection :
    best_variant c9variants = some c9vB ∧
    (∀ (variants : List Json) (v : Json),
      (∀ w ∈ variants, ∀ b, jget w "bitrate" = some b → ∃ n, b = Json.num n) →
      best_variant variants = some v →
      v ∈ variants ∧ ∃ n, jget v "bitrate" = some (Json.num n) ∧
        ∀ w ∈ variants, ∀ m, jget w "bitrate" = some (Json.num m) → m ≤ n) ∧
    (∀ variants : List Json, (∀ w ∈ variants, jget w "bitrate" = none) →
      best_variant variants = none) ∧
    download_videos [c9tweet_no_variant, Json.null, c9tweet_best] =
      Except.ok (["B"], 1) := by
  refine ⟨rfl, ?_, ?_, rfl⟩
  · intro variants v hnum hv
    obtain ⟨hmem, n, hn, hbound, -⟩ :=
      (best_variant_fold_spec variants none hnum
        (fun b hb => Option.noConfusion hb)).1 v hv
    refine ⟨?_, n, hn, hbound⟩
    rcases hmem with h | h
    · exact Option.noConfusion h
    · exact h
  · intro variants hall
    exact best_variant_fold_all_none variants none hall

/-- Witness for C9: the general selection facts applied to the concrete
example list, and the no-bitrate case at the C variant alone. -/
theorem C9_video_best_variant_selection_witness :
    (c9vB ∈ c9variants ∧ ∃ n, jget c9vB "bitrate" = some (Json.num n) ∧
      ∀ w ∈ c9variants, ∀ m, jget w "bitrate" = some (Json.num m) → m ≤ n) ∧
    best_variant [c9vC] = none := by
  obtain ⟨-, h2, h3, -⟩ := C9_video_best_variant_selection
  refine ⟨h2 c9variants c9vB ?hnum rfl, h3 [c9vC] ?hnone⟩
  case hnum =>
    intro w hw b hb
    simp only [c9variants, List.mem_cons, List.mem_singleton, List.not_mem_nil,
      or_false] at hw
    rcases hw with rfl | rfl | rfl
    · rw [show jget c9vA "bitrate" = some (Json.num 100) from rfl] at hb
      cases hb
      exact ⟨100, rfl⟩
    · rw [show jget c9vB "bitrate" = some (Json.num 500) from rfl] at hb
      cases hb
      exact ⟨500, rfl⟩
    · rw [show jget c9vC "bitrate" = none from rfl] at hb
      exact Option.noConfusion hb
  case hnone =>
    intro w hw
    simp only [List.mem_singleton] at hw
    subst hw
    rfl

end TwitterArchive
